import Mathlib

/-!
Verification development for the Device Verification Kit (DVK) byte-stream
pipeline: checksum kernels (`dvk/checksums.py`), the streaming framer
(`skills/transport_session_skill/scripts/transport_session.py`), the command
encoder (`skills/protocol_encode_skill/scripts/dvk_encode.py`), the
shared-memory ring writer (`dvk/shm.py`), the semantic transform stage
(`dvk/semantics.py`) and the detector's result-selection logic
(`skills/protocol_detection_skill/scripts/dvk_detect_protocol.py`).

Modelling conventions:
* Python `bytes` values are `List Nat` (each element a byte value).
* Python unbounded integers are `Nat`/`Int`; where the code masks to a fixed
  width the model masks identically, and a numpy fixed-width element store
  (which raises `OverflowError` on an out-of-range Python int rather than
  truncating) is modelled as `Except` with an explicit range check.
* Python `float` values that the code manipulates (angles, confidences) are
  modelled as exact rationals `ℚ`; all concrete inputs used in theorems below
  are dyadic and small enough that every IEEE-754 double operation the source
  performs on them is exact, so the rational model agrees with the source on
  those inputs.
* Code that raises exceptions is modelled with `Except String`; the framer's
  unbounded `while` loops take explicit fuel, with `fuelOut` marking that the
  canonical fuel bound (one iteration per buffered byte, plus one) was
  exhausted, which for this loop happens exactly when the Python loop cycles
  without consuming input.
-/

namespace DVK

/-! ## Python primitives: slicing, searching, byte conversions -/
/-- Clamp one bound of a Python slice `l[a:b]` to `[0, len]`, resolving a
negative index from the end, as CPython does for step-1 slices. -/
def pyBound (len : Nat) (i : Int) : Nat :=
  let j : Int := if i < 0 then i + len else i
  if j < 0 then 0 else min j.toNat len

/-- Python slice `l[a:b]` with step 1 and possibly negative bounds. -/
def pySlice (l : List Nat) (a b : Int) : List Nat :=
  (l.take (pyBound l.length b)).drop (pyBound l.length a)

/-- Python `bytes.find`: index of the first occurrence of `pat` inside `buf`
(`none` models the `-1` return). -/
def pyFind : List Nat → List Nat → Option Nat
  | buf, pat =>
    if pat.isPrefixOf buf then some 0
    else
      match buf with
      | [] => none
      | _ :: t => (pyFind t pat).map (· + 1)

/-- Little-endian byte-list to unsigned integer (`int.from_bytes(_, "little")`). -/
def fromBytesLE : List Nat → Nat
  | [] => 0
  | b :: t => b + 256 * fromBytesLE t

/-- Big-endian byte-list to unsigned integer (`int.from_bytes(_, "big")`). -/
def fromBytesBE (l : List Nat) : Nat :=
  fromBytesLE l.reverse

/-- Unsigned integer to `len` little-endian bytes (`struct.pack` after masking). -/
def toBytesLE : Nat → Nat → List Nat
  | 0, _ => []
  | len + 1, n => (n % 256) :: toBytesLE len (n / 256)

/-- Unsigned integer to `len` big-endian bytes. -/
def toBytesBE (len n : Nat) : List Nat :=
  (toBytesLE len n).reverse

/-- Slice assignment `l[a : a + xs.length] = xs` (the numpy row copies in
`shm.py` are in-range, so no clamping is needed). -/
def setSlice (l : List α) (a : Nat) (xs : List α) : List α :=
  l.take a ++ xs ++ l.drop (a + xs.length)

/-- Iterate a function `n` times (used for the 8 shift rounds per CRC byte). -/
def iterN (f : α → α) : Nat → α → α
  | 0, x => x
  | n + 1, x => iterN f n (f x)

/-! ## `dvk/checksums.py` -/
/-- Source `reflect_bits`: reverse the low `width` bits of `value`. -/
def reflect_bits (value width : Nat) : Nat :=
  (List.range width).foldl
    (fun result i =>
      if value &&& (1 <<< i) ≠ 0 then result ||| (1 <<< (width - 1 - i)) else result)
    0

/-- One reflected CRC shift round: `crc = (crc >> 1) ^ poly if crc & 1 else crc >> 1`. -/
def crcRoundRef (poly crc : Nat) : Nat :=
  if crc &&& 1 ≠ 0 then (crc >>> 1) ^^^ poly else crc >>> 1

/-- One non-reflected CRC shift round with the given top bit and mask. -/
def crcRoundFwd (poly topbit mask crc : Nat) : Nat :=
  if crc &&& topbit ≠ 0 then ((crc <<< 1) ^^^ poly) &&& mask else (crc <<< 1) &&& mask

/-- Source `crc_compute`: bitwise CRC with configurable parameters; `poly` is
used as-is (for `refin = true` the caller supplies the reflected polynomial). -/
def crc_compute (data : List Nat) (width poly init xorout : Nat)
    (refin refout : Bool) : Nat :=
  let mask := (1 <<< width) - 1
  let crc := init &&& mask
  let crc :=
    if refin then
      (data.foldl (fun crc b => iterN (crcRoundRef poly) 8 (crc ^^^ b)) crc) &&& mask
    else
      let topbit := 1 <<< (width - 1)
      data.foldl (fun crc b => iterN (crcRoundFwd poly topbit mask) 8
        (crc ^^^ ((b <<< (width - 8)) &&& mask))) crc
  let crc := if refout then reflect_bits crc width else crc
  (crc ^^^ xorout) &&& mask

/-- Source `checksum_sum8`: `sum(frame[start : end + 1]) & 0xFF`. The same
function body also appears verbatim in `dvk_encode.py`, where it can be called
with Python-negative bounds, hence the `Int` indices and `pySlice`. -/
def checksum_sum8 (frame : List Nat) (start end_ : Int) : Nat :=
  (pySlice frame start (end_ + 1)).sum &&& 0xFF

/-- Fold of `chk32 = (chk32 << 1) + data_int` over consecutive little-endian
16-bit groups, exactly the loop inside `checksum_cs15`. -/
def cs15Fold : List Nat → Nat → Nat
  | b0 :: b1 :: rest, chk32 => cs15Fold rest ((chk32 <<< 1) + (b0 ||| (b1 <<< 8)))
  | _, chk32 => chk32

/-- Source `checksum_cs15`: pad odd-length input with `0x00`, accumulate
`chk32 = (chk32 << 1) + word` over little-endian 16-bit words, then fold the
carry: `((chk32 & 0x7FFF) + (chk32 >> 15)) & 0x7FFF`. -/
def checksum_cs15 (data : List Nat) : Nat :=
  let d := if data.length % 2 = 1 then data ++ [0] else data
  let chk32 := cs15Fold d 0
  ((chk32 &&& 0x7FFF) + (chk32 >>> 15)) &&& 0x7FFF

/-- Source `resolve_index`: negative indices resolve from the end. -/
def resolve_index (index : Int) (total_len : Nat) : Int :=
  if 0 ≤ index then index else total_len + index

/-- Checksum storage formats accepted by `_checksum_nbytes` /
`read_expected_checksum` (the five valid `store_format` strings; any other
string makes the source raise, which the `Except` paths below model directly). -/
inductive StoreFormat where
  | uint8 | uint16_le | uint16_be | uint32_le | uint32_be
deriving DecidableEq, Repr

/-- Source `_checksum_nbytes`: byte width of a storage format. -/
def checksumNbytes : StoreFormat → Nat
  | .uint8 => 1
  | .uint16_le | .uint16_be => 2
  | .uint32_le | .uint32_be => 4

/-- Source `read_expected_checksum`: read the stored checksum at `store_at`
(negative resolves from the end) in the given format, failing out of bounds. -/
def read_expected_checksum (frame : List Nat) (store_at : Int)
    (fmt : StoreFormat) : Except String Nat :=
  let n := checksumNbytes fmt
  let start := resolve_index store_at frame.length
  if start < 0 ∨ (frame.length : Int) < start + n then
    .error "Checksum field out of bounds"
  else
    let raw := (frame.drop start.toNat).take n
    match fmt with
    | .uint8 => .ok (fromBytesLE raw)
    | .uint16_le | .uint32_le => .ok (fromBytesLE raw)
    | .uint16_be | .uint32_be => .ok (fromBytesBE raw)

/-- One `data_slices` entry of an XOR16 checksum spec (`from`/`to`/`stride`
may be absent, matching the `.get` defaults in the source). -/
structure DataSlice where
  from? : Option Int
  to? : Option Int
  stride? : Option Int
  low_rel_offsets : List Int
  up_rel_offsets : List Int
deriving Repr

/-- The `params` object of an `xor16_slices` checksum spec. -/
structure XorParams where
  seed_low_offsets : List Int
  seed_up_offsets : List Int
  data_slices : List DataSlice
deriving Repr

/-- Accumulate one stride position of a data slice: XOR `frame[pos + rel]`
into the accumulator for every relative offset, skipping out-of-range indices. -/
def xorRels (frame : List Nat) (pos : Nat) (rels : List Int) (acc : Nat) : Nat :=
  rels.foldl
    (fun acc rel =>
      let idx : Int := (pos : Int) + rel
      if 0 ≤ idx ∧ idx < (frame.length : Int) then acc ^^^ frame.getD idx.toNat 0
      else acc)
    acc

/-- Process one `data_slices` entry of `checksum_xor16_slices`, walking `pos`
from the clamped start to the clamped end in `stride` steps. -/
def xorSliceStep (frame : List Nat) (sl : DataSlice) (acc : Nat × Nat) : Nat × Nat :=
  let start0 : Int := sl.from?.getD 0
  let end0 : Int := sl.to?.getD ((frame.length : Int) - 1)
  let stride : Int := sl.stride?.getD 1
  if stride ≤ 0 then acc
  else
    let end1 : Int := if end0 < 0 then (frame.length : Int) + end0 else end0
    let start1 : Int := if start0 < 0 then (frame.length : Int) + start0 else start0
    let start2 : Int := if start1 < 0 then 0 else start1
    let end2 : Int := if (frame.length : Int) ≤ end1 then (frame.length : Int) - 1 else end1
    if end2 < start2 then acc
    else
      let s := start2.toNat
      let e := end2.toNat
      let st := stride.toNat
      let steps := (e - s) / st + 1
      (List.range steps).foldl
        (fun acc k =>
          let pos := s + k * st
          (xorRels frame pos sl.low_rel_offsets acc.1,
           xorRels frame pos sl.up_rel_offsets acc.2))
        acc

/-- Source `checksum_xor16_slices`: seed two accumulators from the declared
offsets, walk every data slice, and return `(xor_up << 8) | xor_low`. -/
def checksum_xor16_slices (frame : List Nat) (params : XorParams) : Nat :=
  let xor_low := params.seed_low_offsets.foldl
    (fun acc off =>
      if 0 ≤ off ∧ off < (frame.length : Int) then acc ^^^ frame.getD off.toNat 0 else acc) 0
  let xor_up := params.seed_up_offsets.foldl
    (fun acc off =>
      if 0 ≤ off ∧ off < (frame.length : Int) then acc ^^^ frame.getD off.toNat 0 else acc) 0
  let acc := params.data_slices.foldl (fun acc sl => xorSliceStep frame sl acc)
    (xor_low, xor_up)
  ((acc.2 <<< 8) ||| acc.1) &&& 0xFFFF

/-- Checksum algorithm tags recognized by `compute_checksum`. -/
inductive ChecksumType where
  | sum8 | cs15 | xor16_slices | crc16 | crc32
deriving DecidableEq, Repr

/-- Display name of a checksum type, as interpolated into source error messages. -/
def ChecksumType.name : ChecksumType → String
  | .sum8 => "sum8"
  | .cs15 => "cs15"
  | .xor16_slices => "xor16_slices"
  | .crc16 => "crc16"
  | .crc32 => "crc32"

/-- The `params` object of a CRC checksum spec. -/
structure CrcParams where
  poly : Nat
  init : Nat
  xorout : Nat
  refin : Bool
  refout : Bool
deriving Repr

/-- A checksum spec dictionary: optional keys are `Option`, matching the
`.get` accesses in the source (`store_at` is required only by verification). -/
structure ChecksumSpec where
  ctype : ChecksumType
  range? : Option (Int × Int)
  store_at? : Option Int
  store_format? : Option StoreFormat
  crc_params? : Option CrcParams
  xor_params? : Option XorParams
deriving Repr

/-- Source `compute_checksum`: dispatch on the checksum type, resolving and
bounds-checking `range` for the single-range algorithms. -/
def compute_checksum (frame : List Nat) (spec : ChecksumSpec) : Except String Nat :=
  match spec.ctype with
  | .xor16_slices =>
    match spec.xor_params? with
    | none => .error "xor16_slices requires checksum.params"
    | some params => .ok (checksum_xor16_slices frame params)
  | ctype =>
    match spec.range? with
    | none => .error "Checksum requires checksum.range"
    | some (f, t) =>
      let start := resolve_index f frame.length
      let end_ := resolve_index t frame.length
      if start < 0 ∨ end_ < 0 ∨ (frame.length : Int) ≤ start ∨
          (frame.length : Int) ≤ end_ ∨ end_ < start then
        .error "Invalid checksum.range"
      else
        let data := pySlice frame start (end_ + 1)
        match ctype with
        | .sum8 => .ok (checksum_sum8 frame start end_)
        | .cs15 => .ok (checksum_cs15 data)
        | .crc16 | .crc32 =>
          if spec.store_format?.isNone then .error "CRC requires checksum.store_format"
          else
            match spec.crc_params? with
            | none => .error "CRC requires checksum.params"
            | some p =>
              let width := if ctype = ChecksumType.crc16 then 16 else 32
              .ok (crc_compute data width p.poly p.init p.xorout p.refin p.refout)
        | _ => .error "unreachable"

/-- Source `verify_checksum`: resolve the storage format (defaulting `uint8`
for sum8 and `uint16_le` for cs15/xor16), read the stored value at `store_at`,
compute the checksum and compare. -/
def verify_checksum (frame : List Nat) (spec : ChecksumSpec) : Except String Bool := do
  let fmt ←
    match spec.store_format? with
    | some f => Except.ok f
    | none =>
      match spec.ctype with
      | .sum8 => Except.ok StoreFormat.uint8
      | .cs15 | .xor16_slices => Except.ok StoreFormat.uint16_le
      | _ => Except.error "checksum.store_format is required for this checksum type"
  let store_at ←
    match spec.store_at? with
    | some s => Except.ok s
    | none => Except.error "KeyError: store_at"
  let expected ← read_expected_checksum frame store_at fmt
  let actual ← compute_checksum frame spec
  return actual = expected

/-! ## Claim C9: the CS15 kernel -/
/-- Split a byte list into consecutive little-endian 16-bit words, written
directly from the specification's wording ("interpret each 2-byte group as
little-endian unsigned 16-bit"). -/
def cs15SpecWords : List Nat → List Nat
  | b0 :: b1 :: rest => (b0 + 256 * b1) :: cs15SpecWords rest
  | [b0] => [b0 + 256 * 0]
  | [] => []

/-- The CS15 algorithm as the specification text declares it: pad to even
length with `0x00`, accumulate `chk32 = (chk32 << 1) + word` over all groups
with no overflow modulus, then `(chk32 & 0x7FFF) + (chk32 >> 15)` masked to
15 bits. -/
def cs15Spec (data : List Nat) : Nat :=
  let padded := if data.length % 2 = 1 then data ++ [0] else data
  let chk32 := (cs15SpecWords padded).foldl (fun a w => 2 * a + w) 0
  ((chk32 % 0x8000) + chk32 / 0x8000) % 0x8000

/-! ## `transport_session.py`: the streaming framer -/
/-- Length-field value types accepted by `parse_uint` in
`transport_session.py`. -/
inductive ValueType where
  | uint8 | uint16_le | uint16_be | uint32_le | uint32_be
deriving DecidableEq, Repr

/-- Byte width required by each value type. -/
def ValueType.nbytes : ValueType → Nat
  | .uint8 => 1
  | .uint16_le | .uint16_be => 2
  | .uint32_le | .uint32_be => 4

/-- Source `parse_uint` (transport variant): strict byte-count checks, raising
`ValueError` (modelled as `.error`) on a width mismatch. -/
def parse_uint (value_bytes : List Nat) (value_type : ValueType) : Except String Nat :=
  match value_type with
  | .uint8 =>
    if value_bytes.length = 1 then .ok (fromBytesLE value_bytes)
    else .error "uint8 requires 1 byte"
  | .uint16_le =>
    if value_bytes.length = 2 then .ok (fromBytesLE value_bytes)
    else .error "uint16_le requires 2 bytes"
  | .uint16_be =>
    if value_bytes.length = 2 then .ok (fromBytesBE value_bytes)
    else .error "uint16_be requires 2 bytes"
  | .uint32_le =>
    if value_bytes.length = 4 then .ok (fromBytesLE value_bytes)
    else .error "uint32_le requires 4 bytes"
  | .uint32_be =>
    if value_bytes.length = 4 then .ok (fromBytesBE value_bytes)
    else .error "uint32_be requires 4 bytes"

/-- Source `LengthSpec`: the three length modes, with the fields that
`LengthSpec.from_frame` fills in (all plain ints in the source). -/
inductive LengthSpec where
  | fixed (value : Int)
  | dynamic (field_offset field_length : Int) (field_type : ValueType)
      (overhead_bytes : Int)
  | counted (field_offset field_length : Int) (field_type : ValueType)
      (unit_bytes overhead_bytes : Int)
deriving Repr

/-- Source `LengthSpec.total_length`: resolve the total frame length against a
buffer prefix; `.ok (-1)` models the `-1` "not enough bytes yet" return, and
`.error` a propagating `ValueError` from `parse_uint`. -/
def LengthSpec.total_length (s : LengthSpec) (frame_bytes : List Nat) :
    Except String Int :=
  match s with
  | .fixed v => .ok v
  | .counted off flen t unit ovh =>
    if (frame_bytes.length : Int) < off + flen then .ok (-1)
    else do
      let raw := pySlice frame_bytes off (off + flen)
      let count ← parse_uint raw t
      return (count : Int) * unit + ovh
  | .dynamic off flen t ovh =>
    if (frame_bytes.length : Int) < off + flen then .ok (-1)
    else do
      let raw := pySlice frame_bytes off (off + flen)
      let payload_len ← parse_uint raw t
      return (payload_len : Int) + ovh

/-- A frame spec as `frame_stream` consumes it: the header bytes (already
parsed by `extract_header`, which rejects an empty list), the length spec, and
the optional checksum spec. -/
structure FrameSpec where
  header : List Nat
  length : LengthSpec
  checksum? : Option ChecksumSpec

/-- Source `FramingStats`. -/
structure FramingStats where
  total_bytes : Nat := 0
  frames_ok : Nat := 0
  frames_bad_checksum : Nat := 0
  resyncs : Nat := 0
deriving DecidableEq, Repr

/-- Result of the framer's loops. `fuelOut` records that the inner `while`
loop ran for its whole (per-entry) fuel budget of `buf.length + 1` iterations
without finishing; since every iteration of the source loop either breaks or
consumes at least one buffered byte — except when the resolved total length is
zero, in which case the loop repeats forever on an unchanged buffer — this
marks exactly the inputs on which the Python loop diverges. -/
inductive StreamOut where
  | fuelOut
  | err (msg : String)
  | done (stats : FramingStats) (frames : List (List Nat))
deriving DecidableEq, Repr

/-- Result of one run of the framer's inner `while True` loop. -/
inductive LoopOut where
  | fuelOut
  | err (msg : String)
  | done (buf : List Nat) (stats : FramingStats) (frames : List (List Nat))
deriving DecidableEq, Repr

/-- Outcome of one iteration of the inner `while True` loop body: `brk` is the
Python `break` (suspend, keeping the buffer), `err` a propagating exception,
`cont` falls through to the next iteration with the updated state. -/
inductive StepRes where
  | brk (buf : List Nat) (stats : FramingStats) (frames : List (List Nat))
  | err (msg : String)
  | cont (buf : List Nat) (stats : FramingStats) (frames : List (List Nat))
deriving DecidableEq, Repr

/-- One iteration of the inner `while True` loop of `frame_stream`: find the
header, count a resync for skipped bytes, resolve the total length, slice the
frame, verify the checksum, and either emit (append to `frames`, which
accumulates the bytes written to `out_frames`) or drop the frame. -/
def innerStep (spec : FrameSpec) (enable_checksum : Bool) (buf : List Nat)
    (stats : FramingStats) (frames : List (List Nat)) : StepRes :=
  match pyFind buf spec.header with
  | none =>
    let buf := if spec.header.length < buf.length
      then buf.drop (buf.length - spec.header.length) else buf
    .brk buf stats frames
  | some idx =>
    let stats := if 0 < idx then { stats with resyncs := stats.resyncs + 1 } else stats
    let buf := buf.drop idx
    match spec.length.total_length buf with
    | .error e => .err e
    | .ok total_len =>
      if total_len < 0 then .brk buf stats frames
      else if (buf.length : Int) < total_len then .brk buf stats frames
      else
        let frame := buf.take total_len.toNat
        let buf := buf.drop total_len.toNat
        let emit : StepRes := .cont buf
          { stats with frames_ok := stats.frames_ok + 1 } (frames ++ [frame])
        let drop : StepRes := .cont buf
          { stats with frames_bad_checksum := stats.frames_bad_checksum + 1 } frames
        match enable_checksum, spec.checksum? with
        | true, some cs =>
          match verify_checksum frame cs with
          | .ok true => emit
          | .ok false => drop
          | .error _ => drop
        | true, none => emit
        | false, _ => emit

/-- The inner `while True` loop: iterate `innerStep` until it breaks or
errors, spending one unit of fuel per iteration. -/
def innerLoop (spec : FrameSpec) (enable_checksum : Bool) :
    Nat → List Nat → FramingStats → List (List Nat) → LoopOut
  | 0, _, _, _ => .fuelOut
  | fuel + 1, buf, stats, frames =>
    match innerStep spec enable_checksum buf stats frames with
    | .brk buf' stats' frames' => .done buf' stats' frames'
    | .err e => .err e
    | .cont buf' stats' frames' => innerLoop spec enable_checksum fuel buf' stats' frames'

/-- The outer read loop of `frame_stream`: the byte source is modelled as the
list of chunks successive `stream.read(4096)` calls return; an empty chunk is
end of stream. Each chunk is appended to the retained buffer and the inner
loop is run with its canonical fuel budget. -/
def frameStreamLoop (spec : FrameSpec) (enable_checksum : Bool) :
    List (List Nat) → List Nat → FramingStats → List (List Nat) → StreamOut
  | [], _buf, stats, frames => .done stats frames
  | chunk :: rest, buf, stats, frames =>
    if chunk.isEmpty then .done stats frames
    else
      let stats := { stats with total_bytes := stats.total_bytes + chunk.length }
      let buf := buf ++ chunk
      match innerLoop spec enable_checksum (buf.length + 1) buf stats frames with
      | .fuelOut => .fuelOut
      | .err e => .err e
      | .done buf' stats' frames' => frameStreamLoop spec enable_checksum rest buf' stats' frames'

/-- Source `frame_stream`: validate the header (as `extract_header` does — an
empty header raises) and run the read loop from an empty buffer. -/
def frame_stream (chunks : List (List Nat)) (spec : FrameSpec)
    (enable_checksum : Bool) : StreamOut :=
  if spec.header.isEmpty then .err "frame.header must be a non-empty list"
  else frameStreamLoop spec enable_checksum chunks [] {} []

/-! ## Claim C2: behaviour on oversized resolved lengths -/
/-- Claim C2's counterexample input: a dynamic-length spec whose length field
resolves to `0xFFFFFFFF`, far beyond the claimed default cap of
`65535 + header_len = 65536`. -/
def c2Spec : FrameSpec :=
  ⟨[0xAA], .dynamic 1 4 .uint32_le 0, none⟩

/-! ## Claim C1: framer completeness on validly framed streams -/
/-- A validly framed message for `spec`, in the sense of claim C1: it starts
with the declared header, the length spec resolves to exactly its length on
the message and on any byte stream extending it (and, on any strict prefix,
either to that same length or to the "not enough bytes yet" marker `-1`), and
its checksum verifies when checksum enforcement applies. -/
structure ValidFrame (spec : FrameSpec) (ck : Bool) (f : List Nat) : Prop where
  header_pre : spec.header <+: f
  len_of_extension : ∀ b : List Nat, f <+: b →
    spec.length.total_length b = .ok (f.length : Int)
  len_of_prefix : ∀ p : List Nat, p <+: f →
    spec.length.total_length p = .ok (f.length : Int) ∨
      spec.length.total_length p = .ok (-1)
  checksum_ok : ∀ cs, ck = true → spec.checksum? = some cs →
    verify_checksum f cs = .ok true

/-- The concrete frame spec of the specification's scenario 1: header
`AA 55`, fixed total length 6, sum8 over bytes 0..4 stored at index 5. -/
def c1Spec : FrameSpec :=
  ⟨[0xAA, 0x55], .fixed 6, some ⟨.sum8, some (0, 4), some 5, some .uint8, none, none⟩⟩

/-! ## Claim C10: termination of `frame_stream` -/
/-- The spec `⟨header AA, fixed length 0⟩`, accepted by `extract_header` and
`LengthSpec.from_frame`, on which the source framer loops forever. -/
def c10Spec : FrameSpec := ⟨[0xAA], .fixed 0, none⟩

/-! ## `dvk_encode.py`: the command encoder -/
/-- Source `encode_value`, restricted to the unsigned scalar types that length
fields and message ids take (the only types `build_frame` itself encodes);
`struct.pack` after the source's masking. -/
def encode_value (value : Nat) : ValueType → List Nat
  | .uint8 => toBytesLE 1 (value &&& 0xFF)
  | .uint16_le => toBytesLE 2 (value &&& 0xFFFF)
  | .uint16_be => toBytesBE 2 (value &&& 0xFFFF)
  | .uint32_le => toBytesLE 4 (value &&& 0xFFFFFFFF)
  | .uint32_be => toBytesBE 4 (value &&& 0xFFFFFFFF)

/-- Source `encode_checksum`: pack the checksum value in the storage format. -/
def encode_checksum (checksum_val : Nat) : StoreFormat → List Nat
  | .uint8 => toBytesLE 1 (checksum_val &&& 0xFF)
  | .uint16_le => toBytesLE 2 (checksum_val &&& 0xFFFF)
  | .uint16_be => toBytesBE 2 (checksum_val &&& 0xFFFF)
  | .uint32_le => toBytesLE 4 (checksum_val &&& 0xFFFFFFFF)
  | .uint32_be => toBytesBE 4 (checksum_val &&& 0xFFFFFFFF)

/-- The frame `build_frame` assembles before the checksum is appended:
`header ‖ [length field if dynamic] ‖ msg_id (u8) ‖ payload`. The header bytes
are taken already parsed (the source re-parses its `0xHH` tokens here). -/
def frame_without_checksum (header_bytes : List Nat) (msg_id : Nat)
    (payload : List Nat) (spec : FrameSpec) : List Nat :=
  header_bytes ++
    (match spec.length with
     | .dynamic _ _ t _ => encode_value payload.length t
     | _ => ([] : List Nat)) ++
    encode_value msg_id .uint8 ++ payload

/-- Source `build_frame`: assemble the frame, then compute the checksum over
the resolved range — `total_len` includes the reserved checksum bytes, and for
sum8 the end bound is clamped to the pre-checksum frame — and append it at the
end of the frame. Only sum8 and CRC checksums are supported; anything else
raises. -/
def build_frame (header_bytes : List Nat) (msg_id : Nat) (payload : List Nat)
    (spec : FrameSpec) : Except String (List Nat) :=
  let frame := frame_without_checksum header_bytes msg_id payload spec
  match spec.checksum? with
  | none => .ok frame
  | some cs =>
    match cs.range? with
    | none => .error "KeyError: range"
    | some (f, t) =>
      let store_format := cs.store_format?.getD .uint8
      let checksum_len := checksumNbytes store_format
      let total_len := frame.length + checksum_len
      let start := resolve_index f total_len
      let end_ := resolve_index t total_len
      match cs.ctype with
      | .sum8 =>
        .ok (frame ++ encode_checksum
          (checksum_sum8 frame start (min end_ ((frame.length : Int) - 1))) store_format)
      | .crc16 | .crc32 =>
        let params := cs.crc_params?.getD ⟨0, 0, 0, false, false⟩
        let width := if cs.ctype = ChecksumType.crc16 then 16 else 32
        let data := pySlice frame start (min (end_ + 1) (frame.length : Int))
        .ok (frame ++ encode_checksum
          (crc_compute data width params.poly params.init params.xorout
            params.refin params.refout) store_format)
      | c => .error ("Unsupported checksum type: " ++ c.name)

/-! ## `dvk/shm.py`: the shared-memory ring writer -/
/-- The writer-visible state of a ring: the control header fields (numpy
`<u4`/`<u8` scalars; an element store of an out-of-range Python int raises
`OverflowError` rather than truncating) plus the point rows of the data
region. Rows are abstract (`α`): `write_points` copies them without
inspecting their layout. -/
structure RingState (α : Type) where
  version : Nat
  capacity : Nat
  write_index : Nat
  seq : Nat
  last_write_ns : Nat
  data : List α
deriving DecidableEq, Repr

/-- Source `create_ring` (its state effect): version 1, `write_index`, `seq`
and `last_write_ns` zeroed, data region zero-filled; rejects a non-positive
capacity with `ValueError`. -/
def create_ring (capacity_points : Int) (zero : α) : Except String (RingState α) :=
  if capacity_points ≤ 0 then .error "capacity_points must be > 0"
  else .ok ⟨1, capacity_points.toNat, 0, 0, 0,
    List.replicate capacity_points.toNat zero⟩

/-- Source `write_points`, with the wall clock passed explicitly
(`time.time_ns()` is an input of the model): drop to the last `capacity` rows
and reset the cursor when the batch is at least as large as the ring,
otherwise copy from `write_index` on, wrapping to the start; then advance
`write_index`, bump `seq` and stamp `last_write_ns`. The `seq` and
`last_write_ns` stores go into `<u8` (u64) numpy fields, and numpy raises
`OverflowError` for a Python int that does not fit — it never wraps — so the
model checks both values against `2 ^ 64` and returns the error instead (the
source raises at the offending store, after the in-place data and
`write_index` stores; no theorem below inspects the state after a raise). -/
def write_points (h : RingState α) (rows : List α) (now_ns : Nat) :
    Except String (RingState α) :=
  let n0 := rows.length
  if n0 = 0 then .ok h
  else
    let cap := h.capacity
    let rows := if cap ≤ n0 then rows.drop (n0 - cap) else rows
    let n := if cap ≤ n0 then cap else n0
    let w := if cap ≤ n0 then 0 else h.write_index
    let end_ := w + n
    let data :=
      if end_ ≤ cap then setSlice h.data w rows
      else
        let first := cap - w
        setSlice (setSlice h.data w (rows.take first)) 0 (rows.drop first)
    if h.seq + 1 < 2 ^ 64 ∧ now_ns < 2 ^ 64 then
      .ok { h with
        data := data,
        write_index := (w + n) % cap,
        seq := h.seq + 1,
        last_write_ns := now_ns }
    else .error "OverflowError: int too big to convert"

/-! ## Claim C6: `seq` and `last_write_ns` monotonicity -/
/-- The states a ring passes through under a sequence of `write_points` calls,
each call given as a `(rows, now_ns)` pair; the initial state is included, and
a raising call ends the sequence (the exception propagates to the caller, so
no further write happens). -/
def scanStates (s : RingState α) : List (List α × Nat) → List (RingState α)
  | [] => [s]
  | w :: ws =>
    match write_points s w.1 w.2 with
    | Except.ok s1 => s :: scanStates s1 ws
    | Except.error _ => [s]

/-! ## `dvk/semantics.py`: the semantic transform stage

Python floats are modelled as exact rationals; all concrete values used in
theorems below are dyadic and small, so every double operation the source
performs on them is exact and the models agree. -/
/-- A Python value as the semantic stage sees it (record fields and row
values). -/
inductive PyVal where
  | str (s : String)
  | int (n : Int)
  | bool (b : Bool)
  | float (q : ℚ)
  | none
deriving DecidableEq, Repr

/-- A decoded record / output row: a Python dict in insertion order. -/
abbrev Record := List (String × PyVal)

/-- Python `dict.get`: `none` models the Python `None` default. -/
def recordGet (r : Record) (k : String) : Option PyVal :=
  r.lookup k

/-- Python dict assignment `r[k] = v` on an assoc list with unique keys:
replace in place, or append. -/
def dictSet : Record → String → PyVal → Record
  | [], k, v => [(k, v)]
  | (k', v') :: t, k, v =>
    if k' == k then (k, v) :: t else (k', v') :: dictSet t k v

/-- Value of a single hex digit character. -/
def hexDigit? (c : Char) : Option Nat :=
  if '0' ≤ c ∧ c ≤ '9' then some (c.toNat - '0'.toNat)
  else if 'a' ≤ c ∧ c ≤ 'f' then some (c.toNat - 'a'.toNat + 10)
  else if 'A' ≤ c ∧ c ≤ 'F' then some (c.toNat - 'A'.toNat + 10)
  else none

/-- Parse consecutive hex-digit pairs into bytes (an odd digit fails). -/
def hexPairs : List Char → Option (List Nat)
  | [] => some []
  | [_] => Option.none
  | c1 :: c2 :: rest => do
    let hi ← hexDigit? c1
    let lo ← hexDigit? c2
    let t ← hexPairs rest
    return (16 * hi + lo) :: t

/-- Python `bytes.fromhex` (whitespace between pairs is skipped, as CPython
does; a malformed string yields `None` like the `except` in `_hex_to_bytes`). -/
def hexToBytes (s : String) : Option (List Nat) :=
  hexPairs (s.data.filter (fun c => !c.isWhitespace))

/-- Source `_hex_to_bytes`: only a parseable hex string yields bytes. -/
def py_hex_to_bytes : Option PyVal → Option (List Nat)
  | some (.str s) => hexToBytes s
  | _ => Option.none

/-- Python `int(float)`: truncation toward zero. -/
def pyTrunc (q : ℚ) : Int :=
  if 0 ≤ q then Rat.floor q else Rat.ceil q

/-- Source `_as_int`: bools, ints, floats (truncated) and digit strings. -/
def py_as_int : Option PyVal → Option Int
  | some (.bool b) => some (if b then 1 else 0)
  | some (.int n) => some n
  | some (.float q) => some (pyTrunc q)
  | some (.str s) => (s.toNat?).map Int.ofNat
  | _ => Option.none

/-- Python `str(x or default)` for optional config strings: empty strings are
falsy and fall back to the default. -/
def orDefault (v : Option String) (d : String) : String :=
  match v with
  | some s => if s = "" then d else s
  | none => d

/-- Source `_angle_deg_from_raw`: `((raw >> right_shift) / scale_div) + offset`
(Python `>>` on ints is an arithmetic shift, as is Lean's `Int` shift). -/
def angle_deg_from_raw (raw : Int) (right_shift : Nat) (scale_div offset : ℚ) : ℚ :=
  ((raw >>> right_shift : Int) : ℚ) / scale_div + offset

/-- Source `_wrap_delta`: per-point angle increment with 360° wrap-around. -/
def wrap_delta (start_deg end_deg : ℚ) (n : Int) : ℚ :=
  if n ≤ 1 then 0
  else if end_deg < start_deg then (end_deg + 360 - start_deg) / ((n : ℚ) - 1)
  else (end_deg - start_deg) / ((n : ℚ) - 1)

/-- The configuration dict of a `triplet_pointcloud_v1` transform, with its
nested `distance` / `intensity` / `hr_flag` / `angle` sub-dicts flattened;
`Option` fields model `.get` with the defaults applied at the use site, as in
the source. -/
structure TripletCfg where
  frame_name : Option String := Option.none
  input_field : Option String := Option.none
  count_ref : Option String := Option.none
  dist_b2_shift : Option Nat := Option.none
  dist_b1_shift : Option Nat := Option.none
  dist_b1_mask : Option Nat := Option.none
  dist_mask : Option Nat := Option.none
  inten_b1_mask : Option Nat := Option.none
  inten_b1_shift : Option Nat := Option.none
  inten_b0_shift : Option Nat := Option.none
  inten_b0_mask : Option Nat := Option.none
  hr_mask : Option Nat := Option.none
  start_field : Option String := Option.none
  end_field : Option String := Option.none
  right_shift : Option Nat := Option.none
  scale_div : Option ℚ := Option.none
  offset : Option ℚ := Option.none
  include_frame_fields : List String := []
deriving Repr

/-- The frame filter at the top of the per-frame loop: skip the frame when a
(non-empty) `frame_name` is configured and `_frame_name` differs. -/
def tripletKeep (fn? : Option String) (frame : Record) : Bool :=
  match fn? with
  | Option.none => true
  | some fn => fn == "" || recordGet frame "_frame_name" == some (PyVal.str fn)

/-- One output row of `triplet_pointcloud_v1` for point index `i`: unpack the
three-byte triplet at offset `3 i`, interpolate the angle, wrap it once past
360°, and copy any `include_frame_fields` through (dict assignment, so a
copied field can overwrite a core key). -/
def tripletRow (frame : Record) (cfg : TripletCfg) (payload : List Nat)
    (start_deg delta : ℚ) (i : Nat) : Record :=
  let b0 := payload.getD (i * 3) 0
  let b1 := payload.getD (i * 3 + 1) 0
  let b2 := payload.getD (i * 3 + 2) 0
  let dist := (((b2 &&& 0xFF) <<< cfg.dist_b2_shift.getD 6) |||
    ((b1 >>> cfg.dist_b1_shift.getD 2) &&& cfg.dist_b1_mask.getD 0x3F)) &&&
    cfg.dist_mask.getD 0x3FFF
  let inten := ((b1 &&& cfg.inten_b1_mask.getD 0x03) <<< cfg.inten_b1_shift.getD 6) |||
    ((b0 >>> cfg.inten_b0_shift.getD 2) &&& cfg.inten_b0_mask.getD 0x3F)
  let hr := b0 &&& cfg.hr_mask.getD 0x01
  let angle0 := start_deg + (i : ℚ) * delta
  let angle := if 360 ≤ angle0 then angle0 - 360 else angle0
  let row : Record :=
    [("_frame_idx", (recordGet frame "_frame_idx").getD PyVal.none),
     ("_point_idx", PyVal.int i),
     ("angle_deg", PyVal.float angle),
     ("distance_raw", PyVal.int dist),
     ("intensity", PyVal.int inten),
     ("hr_flag", PyVal.int hr)]
  cfg.include_frame_fields.foldl
    (fun r k => dictSet r k ((recordGet frame k).getD PyVal.none)) row

/-- The `for i in range(count)` loop of `triplet_pointcloud_v1`: break as soon
as the triplet at `3 i` no longer fits in the payload. -/
def tripletLoop (frame : Record) (cfg : TripletCfg) (payload : List Nat)
    (start_deg delta : ℚ) : Nat → Nat → List Record
  | 0, _ => []
  | rem + 1, i =>
    if payload.length ≤ i * 3 + 2 then []
    else tripletRow frame cfg payload start_deg delta i ::
      tripletLoop frame cfg payload start_deg delta rem (i + 1)

/-- The per-frame body of `_transform_triplet_pointcloud_v1`: the guard chain
(`continue` on missing payload, non-positive count or missing angle fields)
followed by the point loop. -/
def tripletFrameRows (cfg : TripletCfg) (frame : Record) : List Record :=
  if tripletKeep cfg.frame_name frame then
    match py_hex_to_bytes (recordGet frame (orDefault cfg.input_field "samples")) with
    | Option.none => []
    | some payload =>
      let count := (py_as_int (recordGet frame (orDefault cfg.count_ref "lsn"))).getD 0
      if count ≤ 0 then []
      else
        match py_as_int (recordGet frame (orDefault cfg.start_field "fsa")),
            py_as_int (recordGet frame (orDefault cfg.end_field "lsa")) with
        | some start_raw, some end_raw =>
          let start_deg := angle_deg_from_raw start_raw (cfg.right_shift.getD 1)
            (cfg.scale_div.getD 64) (cfg.offset.getD 0)
          let end_deg := angle_deg_from_raw end_raw (cfg.right_shift.getD 1)
            (cfg.scale_div.getD 64) (cfg.offset.getD 0)
          let delta := wrap_delta start_deg end_deg count
          tripletLoop frame cfg payload start_deg delta count.toNat 0
        | _, _ => []
  else []

/-- Source `SemanticResult`. -/
structure SemanticResult where
  records : List Record
  applied : Bool
  reason : String
deriving DecidableEq, Repr

/-- Source `_transform_triplet_pointcloud_v1`: concatenate the per-frame rows
of every record; an empty output is reported as not applied. -/
def transform_triplet_pointcloud_v1 (raw_records : List Record)
    (cfg : TripletCfg) : SemanticResult :=
  let out := (raw_records.map (tripletFrameRows cfg)).flatten
  if out.isEmpty then
    ⟨[], false, "No points produced (missing fields or empty payload)."⟩
  else ⟨out, true, "triplet_pointcloud_v1 applied."⟩

/-- The configuration dict of an `if_dn_pointcloud_v1` transform, flattened
like `TripletCfg`. -/
structure IfDnCfg where
  frame_name : Option String := Option.none
  input_field : Option String := Option.none
  count_ref : Option String := Option.none
  brightness_mode : Option String := Option.none
  start_field : Option String := Option.none
  end_field : Option String := Option.none
  subtract_a000 : Option Bool := Option.none
  scale_div : Option ℚ := Option.none
  offset : Option ℚ := Option.none
  speed_field : Option String := Option.none
  speed_div : Option ℚ := Option.none
  dist_mask : Option Nat := Option.none
  include_frame_fields : List String := []
deriving Repr

/-- One output row of `if_dn_pointcloud_v1` for point index `i` (callers
guarantee the unit fits the payload). -/
def ifDnRow (frame : Record) (cfg : IfDnCfg) (payload : List Nat)
    (unit_bytes : Nat) (brightness : PyVal) (speed_rps : PyVal)
    (start_deg delta : ℚ) (i : Nat) : Record :=
  let base := i * unit_bytes
  let dist := (payload.getD base 0 ||| (payload.getD (base + 1) 0 <<< 8)) &&&
    cfg.dist_mask.getD 0x3FFF
  let angle0 := start_deg + (i : ℚ) * delta
  let angle := if 360 ≤ angle0 then angle0 - 360 else angle0
  let row : Record :=
    [("_frame_idx", (recordGet frame "_frame_idx").getD PyVal.none),
     ("_point_idx", PyVal.int i),
     ("angle_deg", PyVal.float angle),
     ("distance_raw", PyVal.int dist),
     ("brightness", brightness),
     ("speed_rps", speed_rps)]
  cfg.include_frame_fields.foldl
    (fun r k => dictSet r k ((recordGet frame k).getD PyVal.none)) row

/-- The point loop of `if_dn_pointcloud_v1`, breaking when the distance or
brightness bytes run past the payload. -/
def ifDnLoop (frame : Record) (cfg : IfDnCfg) (payload : List Nat)
    (unit_bytes : Nat) (mode : String) (speed_rps : PyVal)
    (start_deg delta : ℚ) : Nat → Nat → List Record
  | 0, _ => []
  | rem + 1, i =>
    let base := i * unit_bytes
    if payload.length ≤ base + 1 then []
    else if mode = "u8" ∧ payload.length ≤ base + 2 then []
    else if mode = "u16_le" ∧ payload.length ≤ base + 3 then []
    else
      let brightness : PyVal :=
        if mode = "u8" then PyVal.int (payload.getD (base + 2) 0)
        else if mode = "u16_le" then
          PyVal.int (payload.getD (base + 2) 0 ||| (payload.getD (base + 3) 0 <<< 8))
        else PyVal.none
      ifDnRow frame cfg payload unit_bytes brightness speed_rps start_deg delta i ::
        ifDnLoop frame cfg payload unit_bytes mode speed_rps start_deg delta rem (i + 1)

/-- The per-frame body of `_transform_if_dn_pointcloud_v1`. -/
def ifDnFrameRows (cfg : IfDnCfg) (mode : String) (unit_bytes : Nat)
    (frame : Record) : List Record :=
  if tripletKeep cfg.frame_name frame then
    match py_hex_to_bytes (recordGet frame (orDefault cfg.input_field "samples")) with
    | Option.none => []
    | some payload =>
      let count := (py_as_int (recordGet frame (orDefault cfg.count_ref "dn"))).getD 0
      if count ≤ 0 then []
      else
        match py_as_int (recordGet frame (orDefault cfg.start_field "fa")),
            py_as_int (recordGet frame (orDefault cfg.end_field "la")) with
        | some start_raw, some end_raw =>
          let scale_div := cfg.scale_div.getD 64
          let offset := cfg.offset.getD 0
          let start_deg := if cfg.subtract_a000.getD true then
              ((start_raw - 0xA000 : Int) : ℚ) / scale_div + offset
            else (start_raw : ℚ) / scale_div + offset
          let end_deg := if cfg.subtract_a000.getD true then
              ((end_raw - 0xA000 : Int) : ℚ) / scale_div + offset
            else (end_raw : ℚ) / scale_div + offset
          let delta := wrap_delta start_deg end_deg count
          let speed_rps : PyVal :=
            match py_as_int (recordGet frame (orDefault cfg.speed_field "sp")) with
            | some r => PyVal.float ((r : ℚ) / cfg.speed_div.getD 3840)
            | Option.none => PyVal.none
          ifDnLoop frame cfg payload unit_bytes mode speed_rps start_deg delta
            count.toNat 0
        | _, _ => []
  else []

/-- Source `_transform_if_dn_pointcloud_v1`. -/
def transform_if_dn_pointcloud_v1 (raw_records : List Record)
    (cfg : IfDnCfg) : SemanticResult :=
  let mode := orDefault cfg.brightness_mode "none"
  if mode ≠ "none" ∧ mode ≠ "u8" ∧ mode ≠ "u16_le" then
    ⟨[], false, "Invalid brightness_mode: " ++ mode⟩
  else
    let unit_bytes := if mode = "none" then 2 else if mode = "u8" then 3 else 4
    let out := (raw_records.map (ifDnFrameRows cfg mode unit_bytes)).flatten
    if out.isEmpty then
      ⟨[], false, "No points produced (missing fields or empty payload)."⟩
    else ⟨out, true, "if_dn_pointcloud_v1 applied."⟩

/-- One entry of `telemetry.transforms`, tagged by its `type` key
(`unsupported` covers every other tag). -/
inductive TransformCfg where
  | triplet (cfg : TripletCfg)
  | if_dn (cfg : IfDnCfg)
  | unsupported (ttype : String)

/-- The `telemetry` section of a command set. -/
structure TelemetrySpec where
  transforms : Option (List TransformCfg) := Option.none

/-- The parsed `commands.yaml` object, reduced to the keys `apply_semantics`
reads. -/
structure CommandsSpec where
  telemetry : Option TelemetrySpec := Option.none

/-- Source `apply_semantics`: dispatch on `transforms[0]` only. -/
def apply_semantics (raw_records : List Record) (commands : CommandsSpec) :
    SemanticResult :=
  match commands.telemetry with
  | Option.none => ⟨raw_records, false, "No telemetry section in commands."⟩
  | some tel =>
    match tel.transforms with
    | Option.none => ⟨raw_records, false, "No telemetry.transforms rules."⟩
    | some [] => ⟨raw_records, false, "No telemetry.transforms rules."⟩
    | some (t0 :: _) =>
      match t0 with
      | .triplet cfg => transform_triplet_pointcloud_v1 raw_records cfg
      | .if_dn cfg => transform_if_dn_pointcloud_v1 raw_records cfg
      | .unsupported ttype =>
        ⟨raw_records, false, "Unsupported telemetry transform type: " ++ ttype⟩

/-! ## Claim C8: transform selection -/
/-- A record with an applicable triplet payload (per the specification's
scenario 5 shape). -/
def c8Records : List Record :=
  [[("_frame_idx", .int 0), ("samples", .str "000000"), ("lsn", .int 1),
    ("fsa", .int 0), ("lsa", .int 64)]]

/-- The angle an output row of the triplet transform carries for point `i`:
the interpolated value, reduced by 360° exactly once when it reaches 360°. -/
def tripletAngle (start_deg delta : ℚ) (i : Nat) : ℚ :=
  if 360 ≤ start_deg + (i : ℚ) * delta then start_deg + (i : ℚ) * delta - 360
  else start_deg + (i : ℚ) * delta

/-- The record of the C5 counterexample: one point, raw start/end angle
`262144`. -/
def c5Frame : Record :=
  [("_frame_idx", .int 0), ("samples", .str "000000"), ("lsn", .int 1),
   ("fsa", .int 262144), ("lsa", .int 262144)]

/-! ## Claim C7: detector method preference (dvk_detect_protocol.py)

`cmd_uart` collects query and banner results into one list, but selects
`best` from the query-filtered list only; a banner match contributes nothing
beyond its regex groups (`matched_groups`), which can supply a `model_id`.
When no query rule matched, `best` comes from the single-compatible-protocol
shortcut (`method="model_file"`) or from sniffing — never from a banner
result.  The I/O-dependent pieces (rule matching against the live port,
the model YAML on disk, and `pick_by_sniff`) are abstracted as parameters:
`RuleOutcome` records for each UART rule whether it matched and with what
result, `refsOf` plays `protocol_refs_for_model ∘ load_model_doc`, and
`sniff_pick` plays `pick_by_sniff` applied to the final candidate list. -/
/-- Source dataclass `DetectionResult` (string fields plus the float
confidence, modeled as `ℚ`). -/
structure DetectionResult where
  protocol_id : Option String
  protocol_version : Option String
  model_id : Option String
  confidence : ℚ
  rule_id : String
  method : String
deriving DecidableEq, Repr

/-- Source `method_rank = {"sniff": 2, "banner": 1, "query": 0}` with
`.get(·, 0)` default. -/
def method_rank (m : String) : Nat :=
  if m = "sniff" then 2 else if m = "banner" then 1 else 0

/-- The sort key of `choose_best`: `(confidence, method_rank)`. -/
def detKey (r : DetectionResult) : ℚ × Nat := (r.confidence, method_rank r.method)

/-- Strict lexicographic order on sort keys. -/
def keyLt (a b : ℚ × Nat) : Prop := a.1 < b.1 ∨ (a.1 = b.1 ∧ a.2 < b.2)

instance (a b : ℚ × Nat) : Decidable (keyLt a b) := by
  unfold keyLt
  infer_instance

/-- Source `choose_best`: `sorted(..., reverse=True)[0]` with Python's stable
sort returns the first element attaining the maximal key; `[]` gives `None`. -/
def choose_best : List DetectionResult → Option DetectionResult
  | [] => Option.none
  | r :: rs =>
    match choose_best rs with
    | Option.none => some r
    | some b => if keyLt (detKey r) (detKey b) then some b else some r

/-- The `best = choose_best([r for r in results if r.method == "query"])`
step of `cmd_uart`. -/
def queryBest (results : List DetectionResult) : Option DetectionResult :=
  choose_best (results.filter (fun r => r.method == "query"))

/-- Python string truthiness for the `or` chains: `""` and `None` are falsy. -/
def strTruthy : Option String → Option String
  | some "" => Option.none
  | some s => some s
  | Option.none => Option.none

/-- `a or b or c` on optional strings (a falsy final operand is reported as
`Option.none`; the only downstream use is the `if model_id:` truthiness test). -/
def pyStrOr3 (a b c : Option String) : Option String :=
  match strTruthy a with
  | some s => some s
  | Option.none =>
    match strTruthy b with
    | some s => some s
    | Option.none => strTruthy c

/-- Last-wins lookup: Python dicts built by repeated `update` keep the most
recent value for a key. -/
def lookupLast (l : List (String × String)) (k : String) : Option String :=
  ((l.filter (fun p => p.1 == k)).getLast?).map Prod.snd

/-- The per-rule outcome of the `for rule in uart_rules` collection loop:
a query rule with its optional `apply_query_rule` result, a banner rule with
its optional `match_banner` result and regex groups (`Option.none` also covers
the empty-`banner_text` guard), or a rule of any other method. -/
inductive RuleOutcome where
  | query (res : Option DetectionResult)
  | banner (res : Option (DetectionResult × List (String × String)))
  | other
deriving Repr

/-- The collection loop of `cmd_uart`: results in rule order, and the
concatenated group updates (later pairs override earlier ones under
`lookupLast`, as `dict.update` does). -/
def collectResults : List RuleOutcome → List DetectionResult × List (String × String)
  | [] => ([], [])
  | o :: t =>
    let rest := collectResults t
    match o with
    | .query (some r) => (r :: rest.1, rest.2)
    | .query Option.none => rest
    | .banner (some (r, g)) => (r :: rest.1, g ++ rest.2)
    | .banner Option.none => rest
    | .other => rest

/-- `expected_by_id = {pid: ver for pid, ver in refs if ver}` (truthy
versions only; represented as the pair list, read with `lookupLast`). -/
def expectedVersions (refs : List (String × Option String)) : List (String × String) :=
  refs.filterMap (fun pv =>
    match pv.2 with
    | some v => if v = "" then Option.none else some (pv.1, v)
    | Option.none => Option.none)

/-- Candidate restriction inside the `if allowed_ids:` branch of `cmd_uart`:
keep candidates whose protocol id is referenced by the model, then filter by
the expected version where one is given. -/
def restrictCandidates (candidates0 : List (String × String))
    (refs : List (String × Option String)) : List (String × String) :=
  let cand1 := candidates0.filter (fun c => (refs.map Prod.fst).contains c.1)
  if (expectedVersions refs).isEmpty then cand1
  else cand1.filter (fun c =>
    match lookupLast (expectedVersions refs) c.1 with
    | Option.none => true
    | some v => c.2 == v)

/-- The decision tail of `cmd_uart` after `best` and `model_id` are known:
the model-file single-candidate shortcut, then the sniff fallback
(`Option.none` models the final `raise SystemExit`). -/
def selectWithBest (best0 : Option DetectionResult) (model_id : Option String)
    (candidates0 : List (String × String))
    (refsOf : String → List (String × Option String))
    (sniff_pick : List (String × String) → Option DetectionResult) :
    Option DetectionResult :=
  match model_id with
  | Option.none =>
    match best0 with
    | some b => some b
    | Option.none => sniff_pick candidates0
  | some mid =>
    if ((refsOf mid).map Prod.fst).isEmpty then
      match best0 with
      | some b => some b
      | Option.none => sniff_pick candidates0
    else if (restrictCandidates candidates0 (refsOf mid)).length = 1 ∧
        best0 = Option.none then
      some { protocol_id := some (((restrictCandidates candidates0 (refsOf mid)).headD ("", "")).1),
             protocol_version := some (((restrictCandidates candidates0 (refsOf mid)).headD ("", "")).2),
             model_id := some mid, confidence := 9 / 10,
             rule_id := "model_file_single", method := "model_file" }
    else
      match best0 with
      | some b => some b
      | Option.none => sniff_pick (restrictCandidates candidates0 (refsOf mid))

/-- `model_id = args.model_id or matched_groups.get("model_id") or
(best.model_id if best else None)` followed by the decision tail. -/
def selectBest (args_model_id : Option String) (results : List DetectionResult)
    (matched_groups : List (String × String)) (candidates0 : List (String × String))
    (refsOf : String → List (String × Option String))
    (sniff_pick : List (String × String) → Option DetectionResult) :
    Option DetectionResult :=
  selectWithBest (queryBest results)
    (pyStrOr3 args_model_id (lookupLast matched_groups "model_id")
      ((queryBest results).bind DetectionResult.model_id))
    candidates0 refsOf sniff_pick

/-- The pure decision core of `cmd_uart`: collect rule outcomes, then select. -/
def cmdUartBest (outcomes : List RuleOutcome) (args_model_id : Option String)
    (candidates0 : List (String × String))
    (refsOf : String → List (String × Option String))
    (sniff_pick : List (String × String) → Option DetectionResult) :
    Option DetectionResult :=
  selectBest args_model_id (collectResults outcomes).1 (collectResults outcomes).2
    candidates0 refsOf sniff_pick

/-- The banner result of the C7 counterexample. -/
def c7BannerRes : DetectionResult :=
  { protocol_id := some "proto_a", protocol_version := some "1",
    model_id := Option.none, confidence := 1, rule_id := "banner_rule",
    method := "banner" }

/-- The sniff result of the C7 counterexample. -/
def c7SniffRes : DetectionResult :=
  { protocol_id := some "proto_b", protocol_version := some "1",
    model_id := Option.none, confidence := 0, rule_id := "sniff",
    method := "sniff" }

/-- The query result of the C7 witness. -/
def c7QueryRes : DetectionResult :=
  { protocol_id := some "proto_a", protocol_version := some "1",
    model_id := Option.none, confidence := 1, rule_id := "query_rule",
    method := "query" }

/-! ## Theorems -/

theorem lor_shiftLeft8_eq_add (a b : Nat) (h : a < 256) :
    a ||| (b <<< 8) = a + 256 * b := by
  have h2 : a < 2 ^ 8 := h
  have h3 := Nat.mul_add_lt_is_or h2 b
  rw [Nat.shiftLeft_eq, Nat.lor_comm, mul_comm b (2 ^ 8), ← h3]
  omega

theorem cs15Fold_eq_specFold (l : List Nat) (hb : ∀ b ∈ l, b < 256)
    (he : l.length % 2 = 0) (a : Nat) :
    cs15Fold l a = (cs15SpecWords l).foldl (fun x w => 2 * x + w) a := by
  induction l using cs15SpecWords.induct generalizing a with
  | case1 b0 b1 rest ih =>
    simp only [cs15Fold, cs15SpecWords, List.foldl_cons]
    rw [lor_shiftLeft8_eq_add b0 b1 (hb b0 (by simp))]
    rw [ih (fun b hbm => hb b (by simp [hbm]))
      (by simp only [List.length_cons] at he; omega)]
    congr 1
  | case2 b0 => simp at he
  | case3 => simp [cs15Fold, cs15SpecWords]

/-- Claim C9: `checksum_cs15` implements exactly the declared algorithm (pad to
even length with `0x00`, fold `chk32 = (chk32 << 1) + word` over little-endian
16-bit words with no overflow modulus, then `((chk32 & 0x7FFF) + (chk32 >> 15))`
masked to 15 bits), and in particular `checksum_cs15 [0x01, 0x02] = 0x0201`. -/
theorem C9_cs15_algorithm :
    (∀ data : List Nat, (∀ b ∈ data, b < 256) → checksum_cs15 data = cs15Spec data) ∧
      checksum_cs15 [0x01, 0x02] = 0x0201 := by
  constructor
  · intro data hb
    simp only [checksum_cs15, cs15Spec]
    have hpadb : ∀ b ∈ (if data.length % 2 = 1 then data ++ [0] else data), b < 256 := by
      intro b hbm
      by_cases h : data.length % 2 = 1 <;> simp [h] at hbm
      · rcases hbm with hbm | hbm
        · exact hb b hbm
        · omega
      · exact hb b hbm
    have hpade : (if data.length % 2 = 1 then data ++ [0] else data).length % 2 = 0 := by
      by_cases h : data.length % 2 = 1 <;> simp [h] <;> omega
    rw [cs15Fold_eq_specFold _ hpadb hpade]
    have hm : ∀ x : Nat, x &&& 0x7FFF = x % 0x8000 := by
      intro x
      have h15 : (0x7FFF : Nat) = 2 ^ 15 - 1 := rfl
      rw [h15, Nat.and_pow_two_sub_one_eq_mod]
    rw [hm, hm, Nat.shiftRight_eq_div_pow]
  · rfl

/-- Witness for C9: the universally quantified conjunct applied at the concrete
byte string `[0x01, 0x02]`. -/
theorem C9_cs15_algorithm_witness :
    checksum_cs15 [0x01, 0x02] = cs15Spec [0x01, 0x02] :=
  C9_cs15_algorithm.1 [0x01, 0x02] (by decide)

/-! ## Step lemmas for the framer loops -/
theorem pyFind_of_isPrefixOf {buf pat : List Nat} (h : pat.isPrefixOf buf) :
    pyFind buf pat = some 0 := by
  unfold pyFind
  simp [h]

theorem innerStep_wait {spec : FrameSpec} {ck : Bool} {buf : List Nat}
    {stats : FramingStats} {frames : List (List Nat)} {t : Int}
    (hfind : pyFind buf spec.header = some 0)
    (ht : spec.length.total_length buf = .ok t)
    (hw : t < 0 ∨ (buf.length : Int) < t) :
    innerStep spec ck buf stats frames = .brk buf stats frames := by
  unfold innerStep
  rw [hfind]
  simp only [Nat.lt_irrefl, if_false, List.drop_zero, ht]
  rcases hw with hw | hw
  · rw [if_pos hw]
  · rw [if_neg (by omega), if_pos hw]

theorem innerStep_emit {spec : FrameSpec} {ck : Bool} {buf : List Nat}
    {stats : FramingStats} {frames : List (List Nat)} {t : Int}
    (hfind : pyFind buf spec.header = some 0)
    (ht : spec.length.total_length buf = .ok t)
    (h0 : 0 ≤ t) (hle : t ≤ (buf.length : Int))
    (hck : ck = false ∨ spec.checksum? = none ∨
      ∃ cs, spec.checksum? = some cs ∧
        verify_checksum (buf.take t.toNat) cs = .ok true) :
    innerStep spec ck buf stats frames =
      .cont (buf.drop t.toNat) { stats with frames_ok := stats.frames_ok + 1 }
        (frames ++ [buf.take t.toNat]) := by
  unfold innerStep
  rw [hfind]
  simp only [Nat.lt_irrefl, if_false, List.drop_zero, ht]
  rw [if_neg (by omega), if_neg (by omega)]
  rcases hck with hck | hck | ⟨cs, hcs, hv⟩
  · subst hck
    rfl
  · rw [hck]
    cases ck <;> rfl
  · rw [hcs]
    cases ck
    · rfl
    · simp [hv]

theorem frameStreamLoop_cons {spec : FrameSpec} {ck : Bool}
    {chunk : List Nat} {rest : List (List Nat)} {buf : List Nat}
    {stats : FramingStats} {frames : List (List Nat)}
    (h : chunk.isEmpty = false) :
    frameStreamLoop spec ck (chunk :: rest) buf stats frames =
      match innerLoop spec ck ((buf ++ chunk).length + 1) (buf ++ chunk)
          { stats with total_bytes := stats.total_bytes + chunk.length } frames with
      | .fuelOut => .fuelOut
      | .err e => .err e
      | .done buf' stats' frames' => frameStreamLoop spec ck rest buf' stats' frames' := by
  conv_lhs => unfold frameStreamLoop
  rw [h]
  simp

/-- Counterexample to claim C2: on the stream `AA FF FF FF FF` the length
field resolves to `4294967295 > 65535 + 1`, yet the framer declares no resync
and consumes nothing — it finishes with `resyncs = 0`, not the claimed
resync-and-skip-one-byte recovery (there is no frame-size cap in the code). -/
theorem C2_counterexample :
    c2Spec.length.total_length [0xAA, 0xFF, 0xFF, 0xFF, 0xFF] = .ok 4294967295 ∧
      (65535 + 1 : Int) < 4294967295 ∧
      frame_stream [[0xAA, 0xFF, 0xFF, 0xFF, 0xFF]] c2Spec true =
        .done ⟨5, 0, 0, 0⟩ [] := by
  refine ⟨rfl, by decide, by decide⟩

/-- Claim C2 amended: `frame_stream` has no maximum frame size. Whenever the
resolved total length exceeds the bytes buffered so far (in particular any
length beyond the whole stream), the framer declares no resync and consumes no
byte: it leaves the buffer intact and suspends awaiting further input, so the
stream ends with the pending bytes unconsumed and no frame emitted. -/
theorem C2_oversized_length_waits (c : List Nat) (spec : FrameSpec) (ck : Bool)
    (t : Int)
    (hne : c ≠ [])
    (hh : spec.header.isEmpty = false)
    (hpre : spec.header.isPrefixOf c = true)
    (ht : spec.length.total_length c = .ok t)
    (hlt : (c.length : Int) < t) :
    frame_stream [c] spec ck = .done ⟨c.length, 0, 0, 0⟩ [] := by
  have hce : c.isEmpty = false := by
    cases c with
    | nil => exact absurd rfl hne
    | cons a l => rfl
  unfold frame_stream
  rw [hh]
  simp only [Bool.false_eq_true, if_false]
  rw [frameStreamLoop_cons hce]
  simp only [List.nil_append]
  unfold innerLoop
  rw [innerStep_wait (pyFind_of_isPrefixOf hpre) ht (Or.inr hlt)]
  simp [frameStreamLoop]

/-- Witness for the amended claim C2 at the concrete counterexample stream. -/
theorem C2_oversized_length_waits_witness :
    frame_stream [[0xAA, 0xFF, 0xFF, 0xFF, 0xFF]] c2Spec true =
      .done ⟨5, 0, 0, 0⟩ [] :=
  C2_oversized_length_waits [0xAA, 0xFF, 0xFF, 0xFF, 0xFF] c2Spec true 4294967295
    (by decide) (by decide) (by decide) rfl (by decide)

theorem pyFind_none_of_short {buf pat : List Nat} (hpat : pat ≠ [])
    (h : buf.length < pat.length) : pyFind buf pat = none := by
  induction buf with
  | nil =>
    unfold pyFind
    rw [if_neg]
    intro hp
    exact hpat (List.eq_nil_of_length_eq_zero
      (Nat.le_zero.mp (List.isPrefixOf_iff_prefix.mp hp).length_le))
  | cons b t ih =>
    have hnp : ¬ (pat.isPrefixOf (b :: t) = true) := fun hp =>
      absurd (List.isPrefixOf_iff_prefix.mp hp).length_le (by omega)
    unfold pyFind
    rw [if_neg hnp]
    simp [ih (by simp only [List.length_cons] at h; omega)]

theorem frame_ne_nil {spec : FrameSpec} {ck : Bool} {f : List Nat}
    (hh : spec.header ≠ []) (hf : ValidFrame spec ck f) : f ≠ [] := by
  intro hnil
  subst hnil
  exact hh (List.prefix_nil.mp hf.header_pre)

/-- Main inner-loop invariant for claim C1: on a buffer that sits at a message
boundary of a validly framed stream, the inner loop emits exactly the complete
messages available in the buffer, counts them in `frames_ok`, touches no other
counter, and suspends on the (strictly partial) remainder. -/
theorem innerLoop_valid (spec : FrameSpec) (ck : Bool) (hh : spec.header ≠ []) :
    ∀ (fuel : Nat) (rem : List (List Nat)) (buf : List Nat)
      (stats : FramingStats) (frames : List (List Nat)),
    (∀ f ∈ rem, ValidFrame spec ck f) →
    buf <+: rem.flatten →
    buf.length < fuel →
    ∃ (k : Nat) (buf' : List Nat),
      k ≤ rem.length ∧
      innerLoop spec ck fuel buf stats frames =
        .done buf' { stats with frames_ok := stats.frames_ok + k }
          (frames ++ rem.take k) ∧
      buf = (rem.take k).flatten ++ buf' ∧
      buf' <+: (rem.drop k).flatten ∧
      (∀ F R', rem.drop k = F :: R' → buf'.length < F.length) := by
  intro fuel
  induction fuel with
  | zero => intro rem buf stats frames _ _ hlt; omega
  | succ fuel ih =>
    intro rem buf stats frames hvalid hpre hlt
    match rem with
    | [] =>
      refine ⟨0, buf, by omega, ?_, by simp, by simpa using hpre, by simp⟩
      have hbuf : buf = [] := List.prefix_nil.mp (by simpa using hpre)
      subst hbuf
      unfold innerLoop
      have hstep : innerStep spec ck [] stats frames = .brk [] stats frames := by
        unfold innerStep
        rw [pyFind_none_of_short hh (by simpa using List.length_pos.mpr hh)]
        simp
      rw [hstep]
      simp
    | F :: R =>
      have hF : ValidFrame spec ck F := hvalid F (by simp)
      have hFpre : F <+: (F :: R).flatten := by
        rw [List.flatten_cons]
        exact List.prefix_append F R.flatten
      have hFne : F ≠ [] := frame_ne_nil hh hF
      rcases Nat.lt_or_ge buf.length F.length with hshort | hlong
      · -- the buffer is a strict prefix of the next message: the loop suspends
        have hbufF : buf <+: F :=
          List.prefix_of_prefix_length_le hpre hFpre (by omega)
        have hbrk : innerStep spec ck buf stats frames = .brk buf stats frames := by
          rcases Nat.lt_or_ge buf.length spec.header.length with hs | hs
          · unfold innerStep
            rw [pyFind_none_of_short hh hs, if_neg (by omega)]
          · have hhb : spec.header <+: buf :=
              List.prefix_of_prefix_length_le hF.header_pre hbufF hs
            rcases hF.len_of_prefix buf hbufF with hlen | hlen
            · exact innerStep_wait
                (pyFind_of_isPrefixOf (List.isPrefixOf_iff_prefix.mpr hhb)) hlen
                (Or.inr (by exact_mod_cast hshort))
            · exact innerStep_wait
                (pyFind_of_isPrefixOf (List.isPrefixOf_iff_prefix.mpr hhb)) hlen
                (Or.inl (by decide))
        refine ⟨0, buf, by omega, ?_, by simp, by simpa using hpre, ?_⟩
        · unfold innerLoop
          rw [hbrk]
          simp
        · intro F' R' hFR
          simp only [List.drop_zero] at hFR
          cases hFR
          exact hshort
      · -- a complete message is buffered: the loop emits it and continues
        obtain ⟨sfx, rfl⟩ : ∃ sfx, F ++ sfx = buf := by
          have hFbuf : F <+: buf :=
            List.prefix_of_prefix_length_le hFpre hpre (by omega)
          exact hFbuf
        have hhb : spec.header <+: F ++ sfx :=
          hF.header_pre.trans (List.prefix_append F sfx)
        have htake : (F ++ sfx).take ((F.length : Int)).toNat = F := by
          simp
        have hdrop : (F ++ sfx).drop ((F.length : Int)).toNat = sfx := by
          simp
        have hlen : spec.length.total_length (F ++ sfx) = .ok (F.length : Int) :=
          hF.len_of_extension (F ++ sfx) (List.prefix_append F sfx)
        have hck : ck = false ∨ spec.checksum? = none ∨
            ∃ cs, spec.checksum? = some cs ∧
              verify_checksum ((F ++ sfx).take ((F.length : Int)).toNat) cs = .ok true := by
          cases hckv : ck with
          | false => exact Or.inl rfl
          | true =>
            cases hcs : spec.checksum? with
            | none => exact Or.inr (Or.inl rfl)
            | some cs =>
              refine Or.inr (Or.inr ⟨cs, rfl, ?_⟩)
              rw [htake]
              exact hF.checksum_ok cs hckv hcs
        have hemit := @innerStep_emit spec ck (F ++ sfx) stats frames
          ((F.length : Int))
          (pyFind_of_isPrefixOf (List.isPrefixOf_iff_prefix.mpr hhb)) hlen
          (by positivity) (by simp) hck
        rw [htake, hdrop] at hemit
        have hsfxpre : sfx <+: R.flatten := by
          rw [List.flatten_cons] at hpre
          exact (List.prefix_append_right_inj F).mp hpre
        have hsfxlt : sfx.length < fuel := by
          have hFpos : 0 < F.length := List.length_pos.mpr hFne
          have := hlt
          simp only [List.length_append] at this
          omega
        obtain ⟨k, buf', hk, hloop, hsplit, hpre', hshort'⟩ :=
          ih R sfx { stats with frames_ok := stats.frames_ok + 1 }
            (frames ++ [F]) (fun f hf => hvalid f (by simp [hf])) hsfxpre hsfxlt
        refine ⟨k + 1, buf', by simpa using hk, ?_, ?_, ?_, ?_⟩
        · unfold innerLoop
          simp only [hemit]
          rw [hloop]
          congr 1
          · simp [Nat.add_assoc, Nat.add_comm 1 k]
          · simp [List.take_succ_cons]
        · rw [List.take_succ_cons, List.flatten_cons, List.append_assoc, ← hsplit]
        · simpa using hpre'
        · simpa using hshort'

/-- Outer-loop version of the claim C1 invariant: feeding the remaining chunks
of a validly framed stream to the read loop emits every remaining message. -/
theorem frameStreamLoop_valid (spec : FrameSpec) (ck : Bool) (hh : spec.header ≠ []) :
    ∀ (chunks rem : List (List Nat)) (buf : List Nat) (stats : FramingStats)
      (frames : List (List Nat)),
    (∀ f ∈ rem, ValidFrame spec ck f) →
    (∀ c ∈ chunks, c ≠ []) →
    buf ++ chunks.flatten = rem.flatten →
    (∀ F R', rem = F :: R' → buf.length < F.length) →
    frameStreamLoop spec ck chunks buf stats frames =
      .done { stats with
              total_bytes := stats.total_bytes + chunks.flatten.length,
              frames_ok := stats.frames_ok + rem.length }
        (frames ++ rem) := by
  intro chunks
  induction chunks with
  | nil =>
    intro rem buf stats frames hvalid _ hconcat hshort
    match rem with
    | [] => simp [frameStreamLoop]
    | F :: R =>
      exfalso
      have h1 := hshort F R rfl
      have hb : buf = F ++ R.flatten := by simpa using hconcat
      have h2 : F.length ≤ buf.length := by
        rw [hb]
        simp
      omega
  | cons chunk rest ihc =>
    intro rem buf stats frames hvalid hchunks hconcat hshort
    have hce : chunk.isEmpty = false := by
      have := hchunks chunk (by simp)
      cases chunk with
      | nil => exact absurd rfl this
      | cons a l => rfl
    rw [frameStreamLoop_cons hce]
    have hpre1 : buf ++ chunk <+: rem.flatten := by
      refine ⟨rest.flatten, ?_⟩
      rw [← hconcat, List.flatten_cons, List.append_assoc]
    obtain ⟨k, buf', hk, hloop, hsplit, hpre', hshort'⟩ :=
      innerLoop_valid spec ck hh ((buf ++ chunk).length + 1) rem (buf ++ chunk)
        { stats with total_bytes := stats.total_bytes + chunk.length } frames
        hvalid hpre1 (by omega)
    rw [hloop]
    have hconcat' : buf' ++ rest.flatten = (rem.drop k).flatten := by
      have h1 : (rem.take k).flatten ++ (buf' ++ rest.flatten) =
          (rem.take k).flatten ++ (rem.drop k).flatten := by
        rw [← List.append_assoc, ← hsplit]
        rw [← List.flatten_append, List.take_append_drop]
        rw [← hconcat, List.flatten_cons, List.append_assoc]
      exact List.append_cancel_left h1
    dsimp only
    rw [ihc (rem.drop k) buf' _ (frames ++ rem.take k)
      (fun f hf => hvalid f ((List.drop_sublist k rem).mem hf))
      (fun c hc => hchunks c (by simp [hc]))
      hconcat' hshort']
    congr 1
    · simp only [List.flatten_cons, List.length_append]
      congr 1
      · omega
      · have : (rem.drop k).length = rem.length - k := by simp
        omega
    · rw [List.append_assoc, List.take_append_drop]

/-- Claim C1: for every byte stream that is a concatenation of validly framed
messages (header prefix, self-describing total length, passing checksum), the
framer emits exactly those messages in order and finishes with
`frames_ok = N`, `frames_bad_checksum = 0`, `resyncs = 0` (and `total_bytes`
equal to the stream length). -/
theorem C1_framer_completeness (spec : FrameSpec) (ck : Bool)
    (chunks msgs : List (List Nat))
    (hh : spec.header ≠ [])
    (hvalid : ∀ f ∈ msgs, ValidFrame spec ck f)
    (hchunks : ∀ c ∈ chunks, c ≠ [])
    (hconcat : chunks.flatten = msgs.flatten) :
    frame_stream chunks spec ck =
      .done ⟨msgs.flatten.length, msgs.length, 0, 0⟩ msgs := by
  unfold frame_stream
  rw [if_neg (by simpa [List.isEmpty_iff] using hh)]
  rw [frameStreamLoop_valid spec ck hh chunks msgs [] {} [] hvalid hchunks
    (by simpa using hconcat)
    (fun F R' hFR => by
      have hF : ValidFrame spec ck F := hvalid F (by simp [hFR])
      simpa using List.length_pos.mpr (frame_ne_nil hh hF))]
  rw [hconcat]
  simp

/-- Witness for claim C1: the scenario-1 frame `AA 55 01 02 03 05` (with the
corrected sum8 checksum `0x05`) fed twice, split across uneven chunks, is
emitted twice with `frames_ok = 2` and clean counters. -/
theorem C1_framer_completeness_witness :
    frame_stream [[0xAA, 0x55, 0x01], [0x02, 0x03, 0x05, 0xAA, 0x55, 0x01, 0x02, 0x03, 0x05]]
        c1Spec true =
      .done ⟨12, 2, 0, 0⟩
        [[0xAA, 0x55, 0x01, 0x02, 0x03, 0x05], [0xAA, 0x55, 0x01, 0x02, 0x03, 0x05]] := by
  have hmsg : ValidFrame c1Spec true [0xAA, 0x55, 0x01, 0x02, 0x03, 0x05] := by
    refine ⟨⟨[0x01, 0x02, 0x03, 0x05], rfl⟩, fun b _ => rfl, fun p _ => Or.inl rfl,
      fun cs _ hcs => ?_⟩
    injection hcs with h
    subst h
    rfl
  exact C1_framer_completeness c1Spec true _
    [[0xAA, 0x55, 0x01, 0x02, 0x03, 0x05], [0xAA, 0x55, 0x01, 0x02, 0x03, 0x05]]
    (by decide)
    (by
      intro f hf
      simp only [List.mem_cons, List.not_mem_nil, or_false] at hf
      rcases hf with rfl | rfl <;> exact hmsg)
    (by decide) (by decide)

/-- On a buffer holding the header and a resolved total length of `0`, every
iteration of the inner loop re-emits an empty frame without consuming a byte:
the loop never terminates, whatever fuel it is given. -/
theorem innerLoop_fixed0_diverges :
    ∀ (fuel : Nat) (stats : FramingStats) (frames : List (List Nat)),
    innerLoop c10Spec true fuel [0xAA] stats frames = .fuelOut := by
  intro fuel
  induction fuel with
  | zero => intro stats frames; rfl
  | succ fuel ih =>
    intro stats frames
    unfold innerLoop
    have hstep : innerStep c10Spec true [0xAA] stats frames =
        .cont [0xAA] { stats with frames_ok := stats.frames_ok + 1 }
          (frames ++ [[]]) := rfl
    rw [hstep]
    exact ih _ _

/-- Counterexample to claim C10: two frame specs accepted at load time on
which `frame_stream` fails to return stats. With a dynamic length field of 1
byte declared as `uint16_le`, `parse_uint` raises and the exception propagates
out of `frame_stream`; with a fixed total length of `0`, the loop re-emits an
empty frame forever without consuming input (the `fuelOut` marker, backed by
`innerLoop_fixed0_diverges`). -/
theorem C10_counterexample :
    frame_stream [[0xAA, 0x05]] ⟨[0xAA], .dynamic 1 1 .uint16_le 1, none⟩ true =
      .err "uint16_le requires 2 bytes" ∧
    frame_stream [[0xAA]] c10Spec true = .fuelOut :=
  ⟨by decide, by decide⟩

/-- Every step of the inner loop under a well-behaved length spec either
breaks (suspends) or consumes at least one buffered byte. -/
theorem innerStep_progress {spec : FrameSpec} {ck : Bool}
    (hh : spec.header ≠ [])
    (hok : ∀ b, ∃ t, spec.length.total_length b = .ok t)
    (hnz : ∀ b, spec.length.total_length b ≠ .ok 0)
    (buf : List Nat) (stats : FramingStats) (frames : List (List Nat)) :
    (∃ b' s' f', innerStep spec ck buf stats frames = .brk b' s' f') ∨
    (∃ b' s' f', innerStep spec ck buf stats frames = .cont b' s' f' ∧
      b'.length < buf.length) := by
  unfold innerStep
  cases hfind : pyFind buf spec.header with
  | none => exact Or.inl ⟨_, _, _, rfl⟩
  | some idx =>
    dsimp only
    obtain ⟨t, ht⟩ := hok (buf.drop idx)
    rw [ht]
    dsimp only
    by_cases hneg : t < 0
    · rw [if_pos hneg]
      exact Or.inl ⟨_, _, _, rfl⟩
    · rw [if_neg hneg]
      by_cases hlen : ((buf.drop idx).length : Int) < t
      · rw [if_pos hlen]
        exact Or.inl ⟨_, _, _, rfl⟩
      · rw [if_neg hlen]
        have htnz : t ≠ 0 := fun h => hnz (buf.drop idx) (h ▸ ht)
        have ht1 : 1 ≤ t.toNat := by omega
        have ht2 : t.toNat ≤ buf.length - idx := by
          simp only [not_lt, List.length_drop] at hlen
          omega
        have hblen : 1 ≤ buf.length := by omega
        have hlt : ((buf.drop idx).drop t.toNat).length < buf.length := by
          simp only [List.length_drop]
          omega
        refine Or.inr ?_
        cases ck with
        | false =>
          dsimp only
          exact ⟨_, _, _, rfl, hlt⟩
        | true =>
          cases hcs : spec.checksum? with
          | none =>
            dsimp only
            exact ⟨_, _, _, rfl, hlt⟩
          | some cs =>
            dsimp only
            rcases hv : verify_checksum ((buf.drop idx).take t.toNat) cs with e | b
            · dsimp only
              exact ⟨_, _, _, rfl, hlt⟩
            · cases b
              · dsimp only
                exact ⟨_, _, _, rfl, hlt⟩
              · dsimp only
                exact ⟨_, _, _, rfl, hlt⟩

/-- The inner loop terminates (with a `done` result) on any buffer, given one
fuel unit per buffered byte plus one, when the length spec never raises and
never resolves to zero. -/
theorem innerLoop_done {spec : FrameSpec} {ck : Bool}
    (hh : spec.header ≠ [])
    (hok : ∀ b, ∃ t, spec.length.total_length b = .ok t)
    (hnz : ∀ b, spec.length.total_length b ≠ .ok 0) :
    ∀ (fuel : Nat) (buf : List Nat) (stats : FramingStats)
      (frames : List (List Nat)), buf.length < fuel →
    ∃ b' s' f', innerLoop spec ck fuel buf stats frames = .done b' s' f' := by
  intro fuel
  induction fuel with
  | zero => intro buf _ _ h; omega
  | succ fuel ih =>
    intro buf stats frames hlt
    rcases @innerStep_progress spec ck hh hok hnz buf stats frames with
      ⟨b', s', f', hstep⟩ | ⟨b', s', f', hstep, hdec⟩
    · refine ⟨b', s', f', ?_⟩
      unfold innerLoop
      rw [hstep]
    · obtain ⟨b'', s'', f'', hrec⟩ := ih b' s' f' (by omega)
      refine ⟨b'', s'', f'', ?_⟩
      unfold innerLoop
      rw [hstep]
      dsimp only
      exact hrec

/-- Claim C10 amended: `frame_stream` terminates and returns its stats for
every finite chunked input, provided the frame spec's length resolution never
raises (its field width matches the declared type) and never resolves to a
total length of zero. -/
theorem C10_framer_termination (spec : FrameSpec) (ck : Bool)
    (chunks : List (List Nat))
    (hh : spec.header ≠ [])
    (hok : ∀ b, ∃ t, spec.length.total_length b = .ok t)
    (hnz : ∀ b, spec.length.total_length b ≠ .ok 0) :
    ∃ stats frames, frame_stream chunks spec ck = .done stats frames := by
  unfold frame_stream
  rw [if_neg (by simpa [List.isEmpty_iff] using hh)]
  suffices h : ∀ (cs : List (List Nat)) (buf : List Nat) (stats : FramingStats)
      (frames : List (List Nat)),
      ∃ stats' frames', frameStreamLoop spec ck cs buf stats frames =
        .done stats' frames' by
    exact h chunks [] {} []
  intro cs
  induction cs with
  | nil => exact fun buf stats frames => ⟨stats, frames, rfl⟩
  | cons chunk rest ih =>
    intro buf stats frames
    cases hce : chunk.isEmpty with
    | true =>
      refine ⟨stats, frames, ?_⟩
      unfold frameStreamLoop
      rw [hce]
      rfl
    | false =>
      obtain ⟨b', s', f', hdone⟩ :=
        @innerLoop_done spec ck hh hok hnz ((buf ++ chunk).length + 1)
          (buf ++ chunk)
          { stats with total_bytes := stats.total_bytes + chunk.length } frames
          (by omega)
      obtain ⟨stats', frames', hrec⟩ := ih b' s' f'
      refine ⟨stats', frames', ?_⟩
      rw [frameStreamLoop_cons hce, hdone]
      exact hrec

/-- Witness for the amended claim C10: a fixed-length-6 spec over a one-byte
stream terminates with a `done` result. -/
theorem C10_framer_termination_witness :
    ∃ stats frames, frame_stream [[0xAA]] c1Spec true = .done stats frames :=
  C10_framer_termination c1Spec true [[0xAA]] (by decide)
    (fun b => ⟨6, rfl⟩)
    (fun b h => by simp [c1Spec, LengthSpec.total_length] at h)

/-! ## Claim C3: encoder/verifier checksum round-trip -/
theorem length_toBytesLE (len n : Nat) : (toBytesLE len n).length = len := by
  induction len generalizing n with
  | zero => rfl
  | succ len ih => simp [toBytesLE, ih]

theorem fromBytesLE_toBytesLE (len n : Nat) :
    fromBytesLE (toBytesLE len n) = n % 2 ^ (8 * len) := by
  induction len generalizing n with
  | zero => simp [toBytesLE, fromBytesLE, Nat.mod_one]
  | succ len ih =>
    simp only [toBytesLE, fromBytesLE, ih]
    have h1 : 2 ^ (8 * (len + 1)) = 256 * 2 ^ (8 * len) := by ring
    rw [h1, Nat.mod_mul]

theorem fromBytesBE_toBytesBE (len n : Nat) :
    fromBytesBE (toBytesBE len n) = n % 2 ^ (8 * len) := by
  simp [fromBytesBE, toBytesBE, fromBytesLE_toBytesLE]

theorem length_encode_checksum (v : Nat) (fmt : StoreFormat) :
    (encode_checksum v fmt).length = checksumNbytes fmt := by
  cases fmt <;> simp [encode_checksum, toBytesBE, length_toBytesLE, checksumNbytes]

theorem checksumNbytes_pos (fmt : StoreFormat) : 1 ≤ checksumNbytes fmt := by
  cases fmt <;> simp [checksumNbytes]

/-- Reading back a checksum appended at the end of the frame returns the
stored value, provided `store_at` resolves to the end of the pre-checksum
frame and the value fits the storage format. -/
theorem read_encode_checksum (frame0 : List Nat) (v : Nat) (fmt : StoreFormat)
    (sa : Int)
    (hres : resolve_index sa (frame0.length + checksumNbytes fmt) = (frame0.length : Int))
    (hv : v < 2 ^ (8 * checksumNbytes fmt)) :
    read_expected_checksum (frame0 ++ encode_checksum v fmt) sa fmt = .ok v := by
  have hlen : (frame0 ++ encode_checksum v fmt).length =
      frame0.length + checksumNbytes fmt := by
    simp [length_encode_checksum]
  unfold read_expected_checksum
  rw [hlen, hres]
  rw [if_neg (by
    push_neg
    constructor
    · positivity
    · have := checksumNbytes_pos fmt
      push_cast
      omega)]
  have hdrop : (frame0 ++ encode_checksum v fmt).drop ((frame0.length : Int)).toNat =
      encode_checksum v fmt := by
    rw [Int.toNat_natCast, List.drop_left]
  rw [hdrop]
  have htake : (encode_checksum v fmt).take (checksumNbytes fmt) =
      encode_checksum v fmt := by
    rw [← length_encode_checksum v fmt, List.take_length]
  rw [htake]
  have key : ∀ (k : Nat), v < 2 ^ (8 * k) →
      (v &&& (2 ^ (8 * k) - 1)) % 2 ^ (8 * k) = v := by
    intro k hk
    rw [Nat.and_pow_two_sub_one_eq_mod, Nat.mod_mod_of_dvd v dvd_rfl,
      Nat.mod_eq_of_lt hk]
  cases fmt
  all_goals
    simp only [encode_checksum, checksumNbytes, fromBytesLE_toBytesLE,
      fromBytesBE_toBytesBE]
  · exact congrArg Except.ok (key 1 hv)
  · exact congrArg Except.ok (key 2 hv)
  · exact congrArg Except.ok (key 2 hv)
  · exact congrArg Except.ok (key 4 hv)
  · exact congrArg Except.ok (key 4 hv)

theorem pySlice_append_of_le (x y : List Nat) (a b : Int)
    (ha : 0 ≤ a) (hb : 0 ≤ b) (hal : a ≤ (x.length : Int))
    (hbl : b ≤ (x.length : Int)) :
    pySlice (x ++ y) a b = pySlice x a b := by
  unfold pySlice pyBound
  simp only [if_neg (show ¬ a < 0 by omega), if_neg (show ¬ b < 0 by omega)]
  have hbx : min b.toNat x.length = b.toNat := by omega
  have hbxy : min b.toNat (x ++ y).length = b.toNat := by
    simp only [List.length_append]
    omega
  have hax : min a.toNat x.length = a.toNat := by omega
  have haxy : min a.toNat (x ++ y).length = a.toNat := by
    simp only [List.length_append]
    omega
  rw [hbx, hbxy, hax, haxy]
  congr 1
  exact List.take_append_of_le_length (by omega)

theorem except_bind_ok {α β : Type} (a : α) (g : α → Except String β) :
    (Except.ok a : Except String α) >>= g = g a := rfl

/-- Counterexample to claim C3: the encoder supports only sum8 and CRC
checksums. A cs15 spec makes `build_frame` raise "Unsupported checksum type",
and an `xor16_slices` spec (which carries no `range`) raises a `KeyError` on
the mandatory `checksum_spec["range"]` access, so for neither type can the
claimed round-trip even produce a frame. -/
theorem C3_counterexample :
    build_frame [0xAA] 1 [0x02]
        ⟨[0xAA], .fixed 5,
          some ⟨.cs15, some (0, -3), some (-2), some .uint16_le, none, none⟩⟩ =
      .error "Unsupported checksum type: cs15" ∧
    build_frame [0xAA] 1 [0x02]
        ⟨[0xAA], .fixed 5,
          some ⟨.xor16_slices, none, some (-2), some .uint16_le, none,
            some ⟨[], [], []⟩⟩⟩ =
      .error "KeyError: range" :=
  ⟨rfl, rfl⟩

/-- Claim C3 amended: for the checksum types the encoder supports — sum8,
crc16, crc32 — `build_frame` appends the computed checksum at the end of the
frame, and `verify_checksum` accepts the result whenever the spec is
placement-consistent: the declared range resolves inside the pre-checksum
frame, `store_at` resolves exactly to the appended checksum position, and the
storage format is wide enough for the checksum value. -/
theorem C3_checksum_roundtrip (header_bytes : List Nat) (msg_id : Nat)
    (payload : List Nat) (spec : FrameSpec) (cs : ChecksumSpec)
    (f t sa rs re : Int) (fmt : StoreFormat) (L0 : Nat)
    (hty : cs.ctype = .sum8 ∨ cs.ctype = .crc16 ∨ cs.ctype = .crc32)
    (hcs : spec.checksum? = some cs)
    (hr : cs.range? = some (f, t))
    (hfmt : cs.store_format? = some fmt)
    (hsa : cs.store_at? = some sa)
    (hL0 : (frame_without_checksum header_bytes msg_id payload spec).length = L0)
    (hrs : resolve_index f (L0 + checksumNbytes fmt) = rs)
    (hre : resolve_index t (L0 + checksumNbytes fmt) = re)
    (hres : resolve_index sa (L0 + checksumNbytes fmt) = (L0 : Int))
    (h0 : 0 ≤ rs) (hord : rs ≤ re) (hlt : re < (L0 : Int))
    (hwidth : (cs.ctype = .crc16 → 16 ≤ 8 * checksumNbytes fmt) ∧
      (cs.ctype = .crc32 → 32 ≤ 8 * checksumNbytes fmt))
    (hparams : ∀ h : cs.ctype = .crc16 ∨ cs.ctype = .crc32,
      ∃ p, cs.crc_params? = some p) :
    ∃ fr, build_frame header_bytes msg_id payload spec = .ok fr ∧
      verify_checksum fr cs = .ok true := by
  have hn1 : 1 ≤ checksumNbytes fmt := checksumNbytes_pos fmt
  have hre1 : re + 1 ≤ (L0 : Int) := by omega
  obtain ⟨F0, hF0⟩ : ∃ F0,
      frame_without_checksum header_bytes msg_id payload spec = F0 := ⟨_, rfl⟩
  rw [hF0] at hL0
  have hslice0 : ∀ v : Nat,
      pySlice (F0 ++ encode_checksum v fmt) rs (re + 1) = pySlice F0 rs (re + 1) := by
    intro v
    refine pySlice_append_of_le _ _ rs (re + 1) h0 (by omega) ?_ ?_ <;>
      rw [hL0]
    · omega
    · omega
  have hlen2 : ∀ v : Nat,
      (F0 ++ encode_checksum v fmt).length = L0 + checksumNbytes fmt := by
    intro v
    simp [length_encode_checksum, hL0]
  have hverify : ∀ v : Nat, v < 2 ^ (8 * checksumNbytes fmt) →
      compute_checksum (F0 ++ encode_checksum v fmt) cs = .ok v →
      verify_checksum (F0 ++ encode_checksum v fmt) cs = .ok true := by
    intro v hv hcompute
    have hread := read_encode_checksum F0 v fmt sa (by rw [hL0]; exact hres) hv
    unfold verify_checksum
    rw [hfmt]
    dsimp only
    rw [hsa]
    dsimp only
    simp only [except_bind_ok]
    rw [hread]
    simp only [except_bind_ok]
    rw [hcompute]
    simp only [except_bind_ok]
    simp
    rfl
  rcases hty with hty1 | hty1 | hty1
  · -- sum8
    refine ⟨F0 ++ encode_checksum (checksum_sum8 F0 rs re) fmt, ?_, ?_⟩
    · unfold build_frame
      rw [hcs]
      dsimp only
      rw [hr]
      dsimp only
      rw [hfmt, Option.getD_some, hF0, hL0, hrs, hre, hty1]
      rw [min_eq_left (by omega : re ≤ (L0 : Int) - 1)]
    · refine hverify _ ?_ ?_
      · refine lt_of_le_of_lt Nat.and_le_right ?_
        calc (0xFF : Nat) < 2 ^ 8 := by norm_num
          _ ≤ 2 ^ (8 * checksumNbytes fmt) :=
            Nat.pow_le_pow_right (by norm_num) (by omega)
      · unfold compute_checksum
        rw [hty1]
        dsimp only
        rw [hr]
        dsimp only
        rw [hlen2, hrs, hre]
        rw [if_neg (by push_cast; omega)]
        congr 1
        unfold checksum_sum8
        rw [hslice0]
  · -- crc16
    obtain ⟨p, hp⟩ := hparams (Or.inl hty1)
    refine ⟨F0 ++ encode_checksum (crc_compute (pySlice F0 rs (re + 1)) 16
      p.poly p.init p.xorout p.refin p.refout) fmt, ?_, ?_⟩
    · unfold build_frame
      rw [hcs]
      dsimp only
      rw [hr]
      dsimp only
      rw [hfmt, Option.getD_some, hF0, hL0, hrs, hre, hty1, hp, Option.getD_some]
      rw [min_eq_left hre1]
      simp
    · refine hverify _ ?_ ?_
      · refine lt_of_le_of_lt (Nat.and_le_right) ?_
        have h3 : (1 <<< 16 : Nat) = 2 ^ 16 := by
          rw [Nat.shiftLeft_eq]; ring
        have h4 : (2 : Nat) ^ 16 ≤ 2 ^ (8 * checksumNbytes fmt) :=
          Nat.pow_le_pow_right (by norm_num) (hwidth.1 hty1)
        omega
      · unfold compute_checksum
        rw [hty1]
        dsimp only
        rw [hr]
        dsimp only
        rw [hlen2, hrs, hre]
        rw [if_neg (by push_cast; omega)]
        rw [hfmt]
        simp only [Option.isNone_some, Bool.false_eq_true, if_false]
        rw [hp]
        dsimp only
        congr 1
        rw [hslice0]
        norm_num
  · -- crc32
    obtain ⟨p, hp⟩ := hparams (Or.inr hty1)
    refine ⟨F0 ++ encode_checksum (crc_compute (pySlice F0 rs (re + 1)) 32
      p.poly p.init p.xorout p.refin p.refout) fmt, ?_, ?_⟩
    · unfold build_frame
      rw [hcs]
      dsimp only
      rw [hr]
      dsimp only
      rw [hfmt, Option.getD_some, hF0, hL0, hrs, hre, hty1, hp, Option.getD_some]
      rw [min_eq_left hre1]
      simp
    · refine hverify _ ?_ ?_
      · refine lt_of_le_of_lt (Nat.and_le_right) ?_
        have h3 : (1 <<< 32 : Nat) = 2 ^ 32 := by
          rw [Nat.shiftLeft_eq]; ring
        have h4 : (2 : Nat) ^ 32 ≤ 2 ^ (8 * checksumNbytes fmt) :=
          Nat.pow_le_pow_right (by norm_num) (hwidth.2 hty1)
        omega
      · unfold compute_checksum
        rw [hty1]
        dsimp only
        rw [hr]
        dsimp only
        rw [hlen2, hrs, hre]
        rw [if_neg (by push_cast; omega)]
        rw [hfmt]
        simp only [Option.isNone_some, Bool.false_eq_true, if_false]
        rw [hp]
        dsimp only
        congr 1
        rw [hslice0]
        rw [if_neg (by decide : ¬ (ChecksumType.crc32 = ChecksumType.crc16))]

/-- Witness for the amended claim C3: building the scenario-1 frame (header
`AA 55`, command 1, payload `02 03`, sum8 over everything but the final byte,
stored as `uint8` at the end) verifies. -/
theorem C3_checksum_roundtrip_witness :
    ∃ fr, build_frame [0xAA, 0x55] 1 [0x02, 0x03]
        ⟨[0xAA, 0x55], .fixed 6,
          some ⟨.sum8, some (0, -2), some (-1), some .uint8, none, none⟩⟩ = .ok fr ∧
      verify_checksum fr
        ⟨.sum8, some (0, -2), some (-1), some .uint8, none, none⟩ = .ok true :=
  C3_checksum_roundtrip [0xAA, 0x55] 1 [0x02, 0x03] _ _ 0 (-2) (-1) 0 4 .uint8 5
    (Or.inl rfl) rfl rfl rfl rfl rfl (by decide) (by decide) (by decide)
    (by decide) (by decide) (by decide) (by decide)
    (fun h => by rcases h with h | h <;> cases h)

/-! ## Claim C4: the write policy -/
theorem setSlice_getElem? (l : List α) (a : Nat) (xs : List α) (j : Nat)
    (hle : a + xs.length ≤ l.length) :
    (setSlice l a xs)[j]? =
      if a ≤ j ∧ j < a + xs.length then xs[j - a]? else l[j]? := by
  unfold setSlice
  have hta : (l.take a).length = a := by
    simp
    omega
  have hlen1 : (l.take a ++ xs).length = a + xs.length := by
    simp
    omega
  rw [List.getElem?_append, hlen1]
  by_cases h2 : j < a + xs.length
  · rw [if_pos h2, List.getElem?_append, hta]
    by_cases h1 : j < a
    · rw [if_pos h1, if_neg (by omega), List.getElem?_take, if_pos h1]
    · rw [if_neg h1, if_pos (by omega)]
  · rw [if_neg h2, if_neg (by omega), List.getElem?_drop]
    congr 1
    omega

theorem setSlice_length (l : List α) (a : Nat) (xs : List α)
    (h : a + xs.length ≤ l.length) : (setSlice l a xs).length = l.length := by
  unfold setSlice
  simp
  omega

theorem setSlice_full (l xs : List α) (hlen : xs.length = l.length) :
    setSlice l 0 xs = xs := by
  unfold setSlice
  rw [List.take_zero, List.nil_append, Nat.zero_add, hlen, List.drop_length,
    List.append_nil]

theorem write_points_big {α : Type} (h : RingState α) (rows : List α)
    (now : Nat) (hne : rows.length ≠ 0) (hbig : h.capacity ≤ rows.length)
    (hsq : h.seq + 1 < 2 ^ 64) (hnow : now < 2 ^ 64) :
    write_points h rows now = Except.ok { h with
      data := setSlice h.data 0 (rows.drop (rows.length - h.capacity)),
      write_index := 0,
      seq := h.seq + 1,
      last_write_ns := now } := by
  unfold write_points
  rw [if_neg hne]
  simp only [if_pos hbig, Nat.zero_add]
  rw [if_pos le_rfl, Nat.mod_self, if_pos (And.intro hsq hnow)]

theorem write_points_nowrap {α : Type} (h : RingState α) (rows : List α)
    (now : Nat) (hne : rows.length ≠ 0) (hsmall : rows.length < h.capacity)
    (hwrap : h.write_index + rows.length ≤ h.capacity)
    (hsq : h.seq + 1 < 2 ^ 64) (hnow : now < 2 ^ 64) :
    write_points h rows now = Except.ok { h with
      data := setSlice h.data h.write_index rows,
      write_index := (h.write_index + rows.length) % h.capacity,
      seq := h.seq + 1,
      last_write_ns := now } := by
  unfold write_points
  rw [if_neg hne]
  simp only [if_neg (not_le.mpr hsmall)]
  rw [if_pos hwrap, if_pos (And.intro hsq hnow)]

theorem write_points_wrap {α : Type} (h : RingState α) (rows : List α)
    (now : Nat) (hne : rows.length ≠ 0) (hsmall : rows.length < h.capacity)
    (hwrap : ¬ h.write_index + rows.length ≤ h.capacity)
    (hsq : h.seq + 1 < 2 ^ 64) (hnow : now < 2 ^ 64) :
    write_points h rows now = Except.ok { h with
      data := setSlice
        (setSlice h.data h.write_index (rows.take (h.capacity - h.write_index)))
        0 (rows.drop (h.capacity - h.write_index)),
      write_index := (h.write_index + rows.length) % h.capacity,
      seq := h.seq + 1,
      last_write_ns := now } := by
  unfold write_points
  rw [if_neg hne]
  simp only [if_neg (not_le.mpr hsmall)]
  rw [if_neg hwrap, if_pos (And.intro hsq hnow)]

theorem write_points_ok_spec {α : Type} (h : RingState α) (rows : List α)
    (now : Nat) (s1 : RingState α) (hne : rows.length ≠ 0)
    (hok : write_points h rows now = Except.ok s1) :
    h.seq + 1 < 2 ^ 64 ∧ now < 2 ^ 64 ∧ s1.seq = h.seq + 1 ∧
      s1.last_write_ns = now := by
  unfold write_points at hok
  rw [if_neg hne] at hok
  dsimp only at hok
  split at hok
  next hb =>
    injection hok with hok
    subst hok
    exact ⟨hb.1, hb.2, rfl, rfl⟩
  next => cases hok

/-- Claim C4: `write_points` implements the declared write policy. For a
non-empty batch of `n` rows on a well-formed ring of capacity `cap`, on any
call that completes (returns rather than raising at the physically
unreachable u64 `seq`/clock overflow): if `n ≥ cap`, the data region becomes
exactly the last `cap` rows of the batch in order and `write_index` resets to
`0`; otherwise row `i` lands at slot `(write_index + i) % cap`, every slot
outside that written region is unchanged, and the new `write_index` is
`(write_index + n) % cap`. -/
theorem C4_write_policy {α : Type} (h : RingState α) (rows : List α)
    (now : Nat) (cap : Nat) (s' : RingState α)
    (hcap : h.capacity = cap) (hpos : 0 < cap)
    (hdata : h.data.length = cap) (hwi : h.write_index < cap)
    (hne : rows ≠ [])
    (hok : write_points h rows now = Except.ok s') :
    (cap ≤ rows.length →
      s'.data = rows.drop (rows.length - cap) ∧
      s'.write_index = 0) ∧
    (rows.length < cap →
      s'.write_index =
        (h.write_index + rows.length) % cap ∧
      (∀ i, i < rows.length →
        s'.data[(h.write_index + i) % cap]? = rows[i]?) ∧
      (∀ j, j < cap → (∀ i, i < rows.length → j ≠ (h.write_index + i) % cap) →
        s'.data[j]? = h.data[j]?)) := by
  have hn0 : rows.length ≠ 0 := fun h0 => hne (List.eq_nil_of_length_eq_zero h0)
  obtain ⟨hsq, hnow, -, -⟩ := write_points_ok_spec h rows now s' hn0 hok
  constructor
  · -- overwrite case: n ≥ cap
    intro hbig
    rw [write_points_big h rows now hn0 (by omega) hsq hnow] at hok
    injection hok with hok
    subst hok
    have hdroplen : (rows.drop (rows.length - cap)).length = cap := by
      simp
      omega
    rw [hcap]
    exact ⟨setSlice_full h.data (rows.drop (rows.length - cap)) (by omega), rfl⟩
  · -- partial case: n < cap
    intro hsmall
    by_cases hwrap : h.write_index + rows.length ≤ cap
    · rw [write_points_nowrap h rows now hn0 (by omega) (by omega) hsq hnow] at hok
      injection hok with hok
      subst hok
      rw [hcap]
      refine ⟨rfl, ?_, ?_⟩
      · intro i hi
        have hij : (h.write_index + i) % cap = h.write_index + i :=
          Nat.mod_eq_of_lt (by omega)
        rw [hij, setSlice_getElem? _ _ _ _ (by omega), if_pos (by omega)]
        congr 1
        omega
      · intro j hj hout
        rw [setSlice_getElem? _ _ _ _ (by omega)]
        rw [if_neg ?_]
        rintro ⟨hj1, hj2⟩
        refine hout (j - h.write_index) (by omega) ?_
        rw [Nat.mod_eq_of_lt (by omega)]
        omega
    · rw [write_points_wrap h rows now hn0 (by omega) (by omega) hsq hnow] at hok
      injection hok with hok
      subst hok
      rw [hcap]
      have hfl : (rows.take (cap - h.write_index)).length = cap - h.write_index := by
        simp
        omega
      have hdl : (rows.drop (cap - h.write_index)).length =
          rows.length - (cap - h.write_index) := by
        simp
      have hsl : (setSlice h.data h.write_index
          (rows.take (cap - h.write_index))).length = cap := by
        rw [setSlice_length _ _ _ (by rw [hfl, hdata]; omega), hdata]
      refine ⟨rfl, ?_, ?_⟩
      · intro i hi
        by_cases hif : i < cap - h.write_index
        · have hij : (h.write_index + i) % cap = h.write_index + i :=
            Nat.mod_eq_of_lt (by omega)
          rw [hij]
          rw [setSlice_getElem? _ _ _ _ (by rw [hsl, hdl]; omega)]
          rw [if_neg (by rw [hdl]; omega)]
          rw [setSlice_getElem? _ _ _ _ (by rw [hfl, hdata]; omega)]
          rw [if_pos (by rw [hfl]; omega)]
          rw [List.getElem?_take, if_pos (by omega)]
          congr 1
          omega
        · have hij : (h.write_index + i) % cap = i - (cap - h.write_index) := by
            have heq : h.write_index + i = cap + (i - (cap - h.write_index)) := by
              omega
            rw [heq, Nat.add_mod_left, Nat.mod_eq_of_lt (by omega)]
          rw [hij]
          rw [setSlice_getElem? _ _ _ _ (by rw [hsl, hdl]; omega)]
          rw [if_pos (by rw [hdl]; omega)]
          rw [List.getElem?_drop]
          congr 1
          omega
      · intro j hj hout
        have hj1 : ¬ j < rows.length - (cap - h.write_index) := by
          intro hjlt
          refine hout (j + (cap - h.write_index)) (by omega) ?_
          have heq : h.write_index + (j + (cap - h.write_index)) = cap + j := by
            omega
          rw [heq, Nat.add_mod_left, Nat.mod_eq_of_lt (by omega)]
        have hj2 : ¬ h.write_index ≤ j := by
          intro hjge
          refine hout (j - h.write_index) (by omega) ?_
          rw [Nat.mod_eq_of_lt (by omega)]
          omega
        rw [setSlice_getElem? _ _ _ _ (by rw [hsl, hdl]; omega)]
        rw [if_neg (by rw [hdl]; omega)]
        rw [setSlice_getElem? _ _ _ _ (by rw [hfl, hdata]; omega)]
        rw [if_neg (by rw [hfl]; omega)]

/-- Witness for claim C4 at the specification's scenario 6: a capacity-4 ring
receiving 6 rows keeps exactly rows 2..5 in order with `write_index = 0`. -/
theorem C4_write_policy_witness :
    write_points (⟨1, 4, 0, 0, 0, [0, 0, 0, 0]⟩ : RingState Nat)
      [1, 2, 3, 4, 5, 6] 99 =
      Except.ok (⟨1, 4, 0, 1, 99, [3, 4, 5, 6]⟩ : RingState Nat) ∧
    (⟨1, 4, 0, 1, 99, [3, 4, 5, 6]⟩ : RingState Nat).data =
      ([1, 2, 3, 4, 5, 6] : List Nat).drop
        (([1, 2, 3, 4, 5, 6] : List Nat).length - 4) ∧
    (⟨1, 4, 0, 1, 99, [3, 4, 5, 6]⟩ : RingState Nat).write_index = 0 := by
  refine ⟨rfl, ?_⟩
  exact (C4_write_policy (⟨1, 4, 0, 0, 0, [0, 0, 0, 0]⟩ : RingState Nat)
    [1, 2, 3, 4, 5, 6] 99 4 (⟨1, 4, 0, 1, 99, [3, 4, 5, 6]⟩ : RingState Nat)
    rfl (by decide) (by decide) (by decide) (by decide) rfl).1 (by decide)

theorem scanStates_head (s : RingState α) (ws : List (List α × Nat)) :
    (scanStates s ws).head? = some s := by
  cases ws with
  | nil => rfl
  | cons w ws =>
    unfold scanStates
    cases hw : write_points s w.1 w.2 <;> simp [hw]

/-- Counterexample to claim C6: `last_write_ns` is the raw `time.time_ns()`
sample of the latest write, and that wall clock is not monotonic (NTP or
manual adjustment can step it backwards). Two successful writes whose clock
samples are `5` then `3` leave the ring with a smaller `last_write_ns` than
before, so the claimed sequence-wide non-decrease fails even though `seq`
behaves. -/
theorem C6_counterexample :
    scanStates (⟨1, 1, 0, 0, 0, [0]⟩ : RingState Nat) [([7], 5), ([8], 3)] =
      [⟨1, 1, 0, 0, 0, [0]⟩, ⟨1, 1, 0, 1, 5, [7]⟩, ⟨1, 1, 0, 2, 3, [8]⟩] ∧
    ¬ List.Chain' (fun a b => a.seq < b.seq ∧ a.last_write_ns ≤ b.last_write_ns)
      (scanStates (⟨1, 1, 0, 0, 0, [0]⟩ : RingState Nat) [([7], 5), ([8], 3)]) := by
  have hs : scanStates (⟨1, 1, 0, 0, 0, [0]⟩ : RingState Nat)
      [([7], 5), ([8], 3)] =
      [⟨1, 1, 0, 0, 0, [0]⟩, ⟨1, 1, 0, 1, 5, [7]⟩, ⟨1, 1, 0, 2, 3, [8]⟩] := rfl
  refine ⟨hs, fun hch => ?_⟩
  rw [hs] at hch
  simp [List.chain'_cons] at hch

/-- Claim C6 amended: along any sequence of non-empty `write_points` calls
that complete (each u64 store in range, which every reachable ring satisfies),
`seq` strictly increases at every write — the store raises instead of ever
wrapping, so no completed write can decrease it — and `last_write_ns` is
non-decreasing provided the sampled `time.time_ns()` values are
non-decreasing; the code stores the raw sample, so nothing enforces this when
the wall clock steps backwards. -/
theorem C6_seq_monotone {α : Type} (s0 : RingState α)
    (ws : List (List α × Nat))
    (hne : ∀ w ∈ ws, w.1 ≠ [])
    (hclock : List.Chain' (· ≤ ·) (s0.last_write_ns :: ws.map Prod.snd)) :
    List.Chain' (fun a b => a.seq < b.seq ∧ a.last_write_ns ≤ b.last_write_ns)
      (scanStates s0 ws) := by
  induction ws generalizing s0 with
  | nil => simp [scanStates]
  | cons w ws ih =>
    have hwne : w.1.length ≠ 0 := fun h0 =>
      hne w (by simp) (List.eq_nil_of_length_eq_zero h0)
    unfold scanStates
    cases hw : write_points s0 w.1 w.2 with
    | error e => simp
    | ok s1 =>
      obtain ⟨hsq, hnow, hseq1, hlast1⟩ :=
        write_points_ok_spec s0 w.1 w.2 s1 hwne hw
      dsimp only
      rw [List.chain'_cons']
      constructor
      · intro y hy
        rw [scanStates_head] at hy
        cases hy
        refine ⟨by omega, ?_⟩
        rw [hlast1]
        rcases hclock with _ | ⟨hstep, _⟩
        simpa using hstep
      · refine ih s1 (fun x hx => hne x (by simp [hx])) ?_
        rw [hlast1]
        rcases hclock with _ | ⟨_, htail⟩
        simpa using htail

/-- Witness for the amended claim C6: two writes with increasing clock values
on a fresh capacity-4 ring give strictly increasing `seq` and non-decreasing
`last_write_ns`. -/
theorem C6_seq_monotone_witness :
    List.Chain' (fun a b => a.seq < b.seq ∧ a.last_write_ns ≤ b.last_write_ns)
      (scanStates (⟨1, 4, 0, 0, 0, [0, 0, 0, 0]⟩ : RingState Nat)
        [([5], 10), ([6, 7], 11)]) :=
  C6_seq_monotone (⟨1, 4, 0, 0, 0, [0, 0, 0, 0]⟩ : RingState Nat)
    [([5], 10), ([6, 7], 11)] (by decide)
    (by simp [List.chain'_cons])

/-- Counterexample to claim C8: with
`transforms = [{type: foo}, {type: triplet_pointcloud_v1}]` and records the
triplet transform applies to, `apply_semantics` returns "Unsupported telemetry
transform type: foo" without ever trying the second (applicable) transform,
although that transform on its own produces points. -/
theorem C8_counterexample :
    apply_semantics c8Records ⟨some ⟨some [.unsupported "foo", .triplet {}]⟩⟩ =
      ⟨c8Records, false, "Unsupported telemetry transform type: foo"⟩ ∧
    (transform_triplet_pointcloud_v1 c8Records {}).applied = true :=
  ⟨rfl, by decide⟩

/-- Claim C8 amended: `apply_semantics` consults only `transforms[0]`. The
transforms after the first are ignored entirely, and the first one is
dispatched by its type tag — supported types are run (whether or not they end
up applicable), any other type yields an "Unsupported" result. -/
theorem C8_first_transform_only (raw : List Record) (t0 : TransformCfg)
    (rest : List TransformCfg) :
    apply_semantics raw ⟨some ⟨some (t0 :: rest)⟩⟩ =
      apply_semantics raw ⟨some ⟨some [t0]⟩⟩ ∧
    (∀ cfg, t0 = .triplet cfg →
      apply_semantics raw ⟨some ⟨some (t0 :: rest)⟩⟩ =
        transform_triplet_pointcloud_v1 raw cfg) ∧
    (∀ cfg, t0 = .if_dn cfg →
      apply_semantics raw ⟨some ⟨some (t0 :: rest)⟩⟩ =
        transform_if_dn_pointcloud_v1 raw cfg) ∧
    (∀ s, t0 = .unsupported s →
      apply_semantics raw ⟨some ⟨some (t0 :: rest)⟩⟩ =
        ⟨raw, false, "Unsupported telemetry transform type: " ++ s⟩) := by
  refine ⟨?_, ?_, ?_, ?_⟩
  · cases t0 <;> rfl
  · rintro cfg rfl
    rfl
  · rintro cfg rfl
    rfl
  · rintro s rfl
    rfl

/-- Witness for the amended claim C8 at a concrete transform list: the second
transform is ignored. -/
theorem C8_first_transform_only_witness :
    (apply_semantics c8Records
        ⟨some ⟨some [.triplet {}, .unsupported "bar"]⟩⟩ =
      apply_semantics c8Records ⟨some ⟨some [.triplet {}]⟩⟩) ∧
    apply_semantics c8Records
        ⟨some ⟨some [.triplet {}, .unsupported "bar"]⟩⟩ =
      transform_triplet_pointcloud_v1 c8Records {} :=
  ⟨(C8_first_transform_only c8Records (.triplet {}) [.unsupported "bar"]).1,
   (C8_first_transform_only c8Records (.triplet {}) [.unsupported "bar"]).2.1 {} rfl⟩

/-! ## Claim C5: triplet transform row count and angle range -/
theorem dictSet_lookup_ne (r : Record) (k : String) (v : PyVal) (k' : String)
    (h : k' ≠ k) : (dictSet r k v).lookup k' = r.lookup k' := by
  induction r with
  | nil =>
    have hb : (k' == k) = false := beq_eq_false_iff_ne.mpr h
    simp [dictSet, List.lookup, hb]
  | cons a t ih =>
    unfold dictSet
    by_cases he : a.1 == k
    · rw [if_pos he]
      simp only [List.lookup]
      rw [show (k' == k) = false from beq_eq_false_iff_ne.mpr h]
      rw [show (k' == a.1) = false from
        beq_eq_false_iff_ne.mpr (by simpa [eq_of_beq he] using h)]
    · rw [if_neg he]
      simp only [List.lookup]
      cases hk : k' == a.1
      · simpa using ih
      · rfl

theorem foldl_dictSet_lookup (ks : List String) (g : String → PyVal)
    (row : Record) (k' : String) (h : k' ∉ ks) :
    (ks.foldl (fun r k => dictSet r k (g k)) row).lookup k' = row.lookup k' := by
  induction ks generalizing row with
  | nil => rfl
  | cons a t ih =>
    simp only [List.foldl_cons]
    rw [ih _ (fun hm => h (by simp [hm]))]
    exact dictSet_lookup_ne row a (g a) k' (fun he => h (by simp [he]))

theorem tripletRow_angle (frame : Record) (cfg : TripletCfg) (payload : List Nat)
    (start_deg delta : ℚ) (i : Nat)
    (h : "angle_deg" ∉ cfg.include_frame_fields) :
    (tripletRow frame cfg payload start_deg delta i).lookup "angle_deg" =
      some (PyVal.float (tripletAngle start_deg delta i)) := by
  unfold tripletRow
  rw [foldl_dictSet_lookup _ _ _ _ h]
  rfl

theorem tripletLoop_length (frame : Record) (cfg : TripletCfg)
    (payload : List Nat) (sd d : ℚ) :
    ∀ rem i, (tripletLoop frame cfg payload sd d rem i).length =
      min rem (payload.length / 3 - i) := by
  intro rem
  induction rem with
  | zero => intro i; simp [tripletLoop]
  | succ rem ih =>
    intro i
    have h3 := Nat.div_add_mod payload.length 3
    have hm3 : payload.length % 3 < 3 := Nat.mod_lt _ (by norm_num)
    unfold tripletLoop
    by_cases hbr : payload.length ≤ i * 3 + 2
    · rw [if_pos hbr]
      simp only [List.length_nil]
      omega
    · rw [if_neg hbr]
      simp only [List.length_cons, ih]
      omega

theorem tripletLoop_getElem (frame : Record) (cfg : TripletCfg)
    (payload : List Nat) (sd d : ℚ) :
    ∀ rem i j r, (tripletLoop frame cfg payload sd d rem i)[j]? = some r →
      r = tripletRow frame cfg payload sd d (i + j) := by
  intro rem
  induction rem with
  | zero => intro i j r hr; simp [tripletLoop] at hr
  | succ rem ih =>
    intro i j r hr
    unfold tripletLoop at hr
    by_cases hbr : payload.length ≤ i * 3 + 2
    · rw [if_pos hbr] at hr
      simp at hr
    · rw [if_neg hbr] at hr
      match j with
      | 0 =>
        simp only [List.getElem?_cons_zero, Option.some.injEq] at hr
        rw [← hr]
        simp
      | j + 1 =>
        simp only [List.getElem?_cons_succ] at hr
        rw [ih (i + 1) j r hr]
        congr 1
        omega

/-- On a single input frame the transform's records are exactly that frame's
rows (the empty case collapses to `[]` on both sides). -/
theorem transform_triplet_records_single (cfg : TripletCfg) (frame : Record) :
    (transform_triplet_pointcloud_v1 [frame] cfg).records =
      tripletFrameRows cfg frame := by
  unfold transform_triplet_pointcloud_v1
  by_cases hout : (([frame].map (tripletFrameRows cfg)).flatten).isEmpty
  · rw [if_pos hout]
    simp only [List.map_cons, List.map_nil, List.flatten_cons,
      List.flatten_nil, List.append_nil, List.isEmpty_iff] at hout
    simp [hout]
  · rw [if_neg hout]
    simp

/-- When the guard chain of `_transform_triplet_pointcloud_v1` passes, the
per-frame body reduces to the point loop at the decoded parameters. -/
theorem tripletFrameRows_eq (cfg : TripletCfg) (frame : Record)
    (payload : List Nat) (count start_raw end_raw : Int) (sd d : ℚ)
    (hkeep : tripletKeep cfg.frame_name frame = true)
    (hpay : py_hex_to_bytes
      (recordGet frame (orDefault cfg.input_field "samples")) = some payload)
    (hcount : py_as_int
      (recordGet frame (orDefault cfg.count_ref "lsn")) = some count)
    (hpos : 0 < count)
    (hstart : py_as_int
      (recordGet frame (orDefault cfg.start_field "fsa")) = some start_raw)
    (hend : py_as_int
      (recordGet frame (orDefault cfg.end_field "lsa")) = some end_raw)
    (hsd : sd = angle_deg_from_raw start_raw (cfg.right_shift.getD 1)
      (cfg.scale_div.getD 64) (cfg.offset.getD 0))
    (hd : d = wrap_delta sd (angle_deg_from_raw end_raw (cfg.right_shift.getD 1)
      (cfg.scale_div.getD 64) (cfg.offset.getD 0)) count) :
    tripletFrameRows cfg frame =
      tripletLoop frame cfg payload sd d count.toNat 0 := by
  subst hsd
  subst hd
  unfold tripletFrameRows
  rw [hkeep]
  simp only [if_true]
  rw [hpay]
  dsimp only
  rw [hcount]
  simp only [Option.getD_some]
  rw [if_neg (by omega)]
  rw [hstart, hend]

/-- Counterexample to claim C5: with the default configuration, a record whose
raw start angle is the (uint32-representable) value `262144` yields a single
row whose `angle_deg` is `(262144 >> 1) / 64 - 360 = 1688`, far outside
`[0, 360)` — the transform subtracts 360° at most once and never wraps large
or negative angles into range. -/
theorem C5_counterexample :
    (transform_triplet_pointcloud_v1 [c5Frame] {}).records.length = 1 ∧
    ((transform_triplet_pointcloud_v1 [c5Frame] {}).records.headD []).lookup
      "angle_deg" = some (.float 1688) ∧
    ¬ ((1688 : ℚ) < 360) := by
  have heq : (transform_triplet_pointcloud_v1 [c5Frame] {}).records =
      tripletLoop c5Frame {} [0, 0, 0] 2048 0 (Int.toNat 1) 0 := by
    rw [transform_triplet_records_single]
    exact tripletFrameRows_eq {} c5Frame [0, 0, 0] 1 262144 262144 2048 0
      (by decide) (by decide) (by decide) (by decide) (by decide) (by decide)
      (by
        show (2048 : ℚ) = (((262144 : Int) >>> 1 : Int) : ℚ) / 64 + 0
        rw [show ((262144 : Int) >>> 1) = 131072 from by decide]
        norm_num)
      (by simp [wrap_delta])
  have hlen :
      (tripletLoop c5Frame {} [0, 0, 0] 2048 0 (Int.toNat 1) 0).length = 1 := by
    rw [tripletLoop_length]
    decide
  refine ⟨by rw [heq, hlen], ?_, by norm_num⟩
  rw [heq]
  cases hl : tripletLoop c5Frame {} [0, 0, 0] 2048 0 (Int.toNat 1) 0 with
  | nil =>
    rw [hl] at hlen
    simp at hlen
  | cons a t =>
    have ha := tripletLoop_getElem c5Frame {} [0, 0, 0] 2048 0 (Int.toNat 1) 0 0 a
      (by rw [hl]; simp)
    simp only [List.headD_cons]
    rw [ha, tripletRow_angle _ _ _ _ _ _ (by decide)]
    have h0 : tripletAngle 2048 0 (0 + 0) = 1688 := by
      unfold tripletAngle
      norm_num
    rw [h0]

/-- Claim C5 amended: for every frame the triplet transform processes (payload
decodes from hex, positive count, start/end angle fields present), the number
of emitted rows is exactly `min count ⌊len(payload) / 3⌋`; each row `i`
carries the angle `start_deg + i·delta`, reduced by 360° exactly once when it
reaches 360°, so the angles lie in `[0, 360)` whenever the interpolated values
lie in `[0, 720)` (but not in general). -/
theorem C5_triplet_rows (cfg : TripletCfg) (frame : Record) (payload : List Nat)
    (count start_raw end_raw : Int)
    (hkeep : tripletKeep cfg.frame_name frame = true)
    (hpay : py_hex_to_bytes
      (recordGet frame (orDefault cfg.input_field "samples")) = some payload)
    (hcount : py_as_int
      (recordGet frame (orDefault cfg.count_ref "lsn")) = some count)
    (hpos : 0 < count)
    (hstart : py_as_int
      (recordGet frame (orDefault cfg.start_field "fsa")) = some start_raw)
    (hend : py_as_int
      (recordGet frame (orDefault cfg.end_field "lsa")) = some end_raw)
    (hinc : "angle_deg" ∉ cfg.include_frame_fields) :
    (transform_triplet_pointcloud_v1 [frame] cfg).records.length =
      min count.toNat (payload.length / 3) ∧
    (∀ (sd d : ℚ),
      sd = angle_deg_from_raw start_raw (cfg.right_shift.getD 1)
        (cfg.scale_div.getD 64) (cfg.offset.getD 0) →
      d = wrap_delta sd (angle_deg_from_raw end_raw (cfg.right_shift.getD 1)
        (cfg.scale_div.getD 64) (cfg.offset.getD 0)) count →
      (∀ j r, (transform_triplet_pointcloud_v1 [frame] cfg).records[j]? = some r →
        r.lookup "angle_deg" = some (PyVal.float (tripletAngle sd d j))) ∧
      ((∀ j, j < min count.toNat (payload.length / 3) →
          0 ≤ sd + (j : ℚ) * d ∧ sd + (j : ℚ) * d < 720) →
        ∀ r ∈ (transform_triplet_pointcloud_v1 [frame] cfg).records,
          ∃ q, r.lookup "angle_deg" = some (PyVal.float q) ∧ 0 ≤ q ∧ q < 360)) := by
  have hrows : (transform_triplet_pointcloud_v1 [frame] cfg).records =
      tripletFrameRows cfg frame := by
    unfold transform_triplet_pointcloud_v1
    by_cases hout : (([frame].map (tripletFrameRows cfg)).flatten).isEmpty
    · rw [if_pos hout]
      simp only [List.map_cons, List.map_nil, List.flatten_cons,
        List.flatten_nil, List.append_nil, List.isEmpty_iff] at hout
      simp [hout]
    · rw [if_neg hout]
      simp
  have hbody : tripletFrameRows cfg frame =
      tripletLoop frame cfg payload
        (angle_deg_from_raw start_raw (cfg.right_shift.getD 1)
          (cfg.scale_div.getD 64) (cfg.offset.getD 0))
        (wrap_delta
          (angle_deg_from_raw start_raw (cfg.right_shift.getD 1)
            (cfg.scale_div.getD 64) (cfg.offset.getD 0))
          (angle_deg_from_raw end_raw (cfg.right_shift.getD 1)
            (cfg.scale_div.getD 64) (cfg.offset.getD 0)) count)
        count.toNat 0 := by
    unfold tripletFrameRows
    rw [hkeep]
    simp only [if_true]
    rw [hpay]
    dsimp only
    rw [hcount]
    simp only [Option.getD_some]
    rw [if_neg (by omega)]
    rw [hstart, hend]
  rw [hrows, hbody]
  constructor
  · rw [tripletLoop_length]
    omega
  · rintro sd d rfl rfl
    constructor
    · intro j r hr
      rw [tripletLoop_getElem frame cfg payload _ _ count.toNat 0 j r hr]
      rw [tripletRow_angle _ _ _ _ _ _ hinc]
      simp
    · intro hbnd r hrmem
      rw [List.mem_iff_getElem?] at hrmem
      obtain ⟨j, hj⟩ := hrmem
      have hjlt : j < min count.toNat (payload.length / 3) := by
        have := (List.getElem?_eq_some_iff.mp hj).1
        rw [tripletLoop_length] at this
        omega
      rw [tripletLoop_getElem frame cfg payload _ _ count.toNat 0 j r hj]
      rw [tripletRow_angle _ _ _ _ _ _ hinc, Nat.zero_add]
      refine ⟨_, rfl, ?_, ?_⟩ <;>
      · obtain ⟨hb0, hb1⟩ := hbnd j hjlt
        unfold tripletAngle
        split <;> linarith

/-- Witness for the amended claim C5 at the specification's scenario 5: two
points at `0°` and `0.5°`. -/
theorem C5_triplet_rows_witness :
    (transform_triplet_pointcloud_v1
      [[("_frame_idx", .int 0), ("samples", .str "000000000000"), ("lsn", .int 2),
        ("fsa", .int 0), ("lsa", .int 64)]] {}).records.length = min 2 4 ∧
    ∀ r ∈ (transform_triplet_pointcloud_v1
      [[("_frame_idx", .int 0), ("samples", .str "000000000000"), ("lsn", .int 2),
        ("fsa", .int 0), ("lsa", .int 64)]] {}).records,
      ∃ q, r.lookup "angle_deg" = some (PyVal.float q) ∧ 0 ≤ q ∧ q < 360 := by
  have h := C5_triplet_rows {}
    [("_frame_idx", .int 0), ("samples", .str "000000000000"), ("lsn", .int 2),
      ("fsa", .int 0), ("lsa", .int 64)]
    [0, 0, 0, 0, 0, 0] 2 0 64 (by decide) (by decide) (by decide) (by decide)
    (by decide) (by decide) (by decide)
  refine ⟨by simpa using h.1, ?_⟩
  have h2 := (h.2 _ _ rfl rfl).2
  refine fun r hr => h2 ?_ r hr
  intro j hj
  have hs : ((64 : Int) >>> (1 : Nat)) = 32 := by decide
  constructor <;>
  · simp only [angle_deg_from_raw, wrap_delta] at *
    norm_num [hs] at *
    try interval_cases j <;> norm_num

/-- When a query rule produced a best result, every branch of the decision
tail returns it. -/
theorem selectWithBest_some (q : DetectionResult) (mid : Option String)
    (c0 : List (String × String)) (refsOf : String → List (String × Option String))
    (sp : List (String × String) → Option DetectionResult) :
    selectWithBest (some q) mid c0 refsOf sp = some q := by
  unfold selectWithBest
  cases mid with
  | none => rfl
  | some m =>
    dsimp only
    by_cases he : ((refsOf m).map Prod.fst).isEmpty
    · rw [if_pos he]
    · rw [if_neg he, if_neg (by simp)]

/-- When no query rule produced a result, the decision tail returns the
model-file shortcut result or whatever `sniff_pick` yields. -/
theorem selectWithBest_none (mid : Option String) (c0 : List (String × String))
    (refsOf : String → List (String × Option String))
    (sp : List (String × String) → Option DetectionResult) (b : DetectionResult)
    (h : selectWithBest Option.none mid c0 refsOf sp = some b) :
    b.method = "model_file" ∨ ∃ cs, sp cs = some b := by
  unfold selectWithBest at h
  cases mid with
  | none => exact Or.inr ⟨c0, h⟩
  | some m =>
    dsimp only at h
    by_cases he : ((refsOf m).map Prod.fst).isEmpty
    · rw [if_pos he] at h
      exact Or.inr ⟨c0, h⟩
    · rw [if_neg he] at h
      by_cases hc : (restrictCandidates c0 (refsOf m)).length = 1 ∧
          (Option.none : Option DetectionResult) = Option.none
      · rw [if_pos hc] at h
        cases h
        exact Or.inl rfl
      · rw [if_neg hc] at h
        exact Or.inr ⟨restrictCandidates c0 (refsOf m), h⟩

/-- Counterexample to claim C7: no query rule matches, a banner rule does
match, and sniffing returns a (lower-confidence) result — `cmd_uart` returns
the sniff result, not the banner result: banner matches are never preferred
over sniff results because banner results are dropped by the query filter. -/
theorem C7_counterexample :
    cmdUartBest [RuleOutcome.query Option.none,
        RuleOutcome.banner (some (c7BannerRes, []))] Option.none
        [("proto_a", "1"), ("proto_b", "1")] (fun _ => [])
        (fun _ => some c7SniffRes) = some c7SniffRes ∧
    c7BannerRes.method = "banner" ∧ c7SniffRes.method = "sniff" ∧
    c7SniffRes ≠ c7BannerRes := by
  refine ⟨rfl, rfl, rfl, fun h => ?_⟩
  exact absurd (congrArg DetectionResult.method h) (by decide)

/-- Claim C7 amended: the detector prefers query results unconditionally —
whenever the query-filtered `choose_best` yields a result, `cmd_uart` returns
exactly that result (in particular when a banner rule matches too).  A banner
match, however, is never itself the returned result: it only contributes its
regex groups (e.g. a `model_id`); when no query rule matched, the returned
result is the single-compatible-protocol `model_file` shortcut or the sniff
pick. -/
theorem C7_method_preference (outcomes : List RuleOutcome)
    (args_model_id : Option String) (candidates0 : List (String × String))
    (refsOf : String → List (String × Option String))
    (sniff_pick : List (String × String) → Option DetectionResult) :
    (∀ q, queryBest (collectResults outcomes).1 = some q →
      cmdUartBest outcomes args_model_id candidates0 refsOf sniff_pick = some q) ∧
    (∀ b, cmdUartBest outcomes args_model_id candidates0 refsOf sniff_pick = some b →
      queryBest (collectResults outcomes).1 = some b ∨
      b.method = "model_file" ∨ ∃ cs, sniff_pick cs = some b) := by
  constructor
  · intro q hq
    unfold cmdUartBest selectBest
    rw [hq]
    exact selectWithBest_some q _ _ _ _
  · intro b hb
    unfold cmdUartBest selectBest at hb
    cases hqb : queryBest (collectResults outcomes).1 with
    | none =>
      rw [hqb] at hb
      exact Or.inr (selectWithBest_none _ _ _ _ _ hb)
    | some q =>
      rw [hqb] at hb
      rw [selectWithBest_some] at hb
      exact Or.inl hb

/-- Witness for the amended claim C7: a query rule and a banner rule both
match; the returned result is the query rule's. -/
theorem C7_method_preference_witness :
    cmdUartBest [RuleOutcome.query (some c7QueryRes),
        RuleOutcome.banner (some (c7BannerRes, []))] Option.none
        [("proto_a", "1"), ("proto_b", "1")] (fun _ => [])
        (fun _ => Option.none) = some c7QueryRes :=
  (C7_method_preference [RuleOutcome.query (some c7QueryRes),
      RuleOutcome.banner (some (c7BannerRes, []))] Option.none
      [("proto_a", "1"), ("proto_b", "1")] (fun _ => [])
      (fun _ => Option.none)).1 c7QueryRes rfl

end DVK

